import Mathlib

set_option maxRecDepth 8000

/-!
Verification development for the SRT2Clips repository
(`src/srt2clip_b.py`, `src/srt2clip_webui.py`).

The Python sources are shallowly embedded here.  Strings are modelled as
`List Char`; Python string primitives (`split`, `strip`, `splitlines`,
`replace`, the leading-digit regex) are re-implemented faithfully on
`List Char`.  Fallible code returns `Except PyErr`.  Python floats
(`format_time` divides milliseconds by `1000` using float `/`) are modelled
exactly: an IEEE-754 binary64 value is represented by the rational it
denotes, and each arithmetic operation rounds its exact rational result to
53 significant bits with round-to-nearest, ties-to-even (`fl`).  The
exponent range of binary64 is irrelevant at the magnitudes reachable in this
program (no overflow/underflow below 2^100), so `fl` uses an unbounded
exponent.  Audio (the external pydub library) is modelled at the interface
level the spec assigns to it: a clip is its duration in milliseconds,
slicing clamps like a Python slice, concatenation adds durations.
-/

/-! ### Python string primitives on `List Char` -/

/-- Boolean test that `pat` is an initial segment of `s`. -/
def startsWithSeq : List Char → List Char → Bool
  | [], _ => true
  | _ :: _, [] => false
  | p :: ps, c :: cs => p == c && startsWithSeq ps cs

/-- Index of the first occurrence of `sep` in `s` (Python `str.find`),
`none` if there is none.  Only used with nonempty `sep`. -/
def findOcc (sep : List Char) : List Char → Option ℕ
  | [] => if sep.isEmpty then some 0 else none
  | c :: rest =>
    if startsWithSeq sep (c :: rest) then some 0
    else (findOcc sep rest).map (· + 1)

/-- Fuel-driven worker for `pySplit`; fuel `≥ length` of the string is
always sufficient because each step consumes at least one character. -/
def pySplitF (sep : List Char) : ℕ → List Char → List (List Char)
  | 0, s => [s]
  | fuel + 1, s =>
    match findOcc sep s with
    | none => [s]
    | some i => s.take i :: pySplitF sep fuel (s.drop (i + sep.length))

/-- Python `s.split(sep)` for a nonempty separator: split on non-overlapping
occurrences, left to right, keeping empty parts. -/
def pySplit (sep s : List Char) : List (List Char) :=
  pySplitF sep s.length s

/-- Python whitespace as stripped by `str.strip()` (ASCII part). -/
def isPySpace (c : Char) : Bool :=
  c == ' ' || c == '\t' || c == '\n' || c == '\r' || c == '\x0b' || c == '\x0c'

/-- Python `s.strip()`. -/
def pyStrip (s : List Char) : List Char :=
  ((s.dropWhile isPySpace).reverse.dropWhile isPySpace).reverse

/-- Python `s.splitlines()` restricted to `\n` line breaks: like
`split("\n")` but without a final empty part for a trailing newline. -/
def pySplitlines (s : List Char) : List (List Char) :=
  if s.isEmpty then []
  else
    let parts := pySplit ['\n'] s
    if s.getLast? == some '\n' then parts.dropLast else parts

/-- Fuel-driven worker for `pyReplace`. -/
def pyReplaceF (old new : List Char) : ℕ → List Char → List Char
  | 0, s => s
  | fuel + 1, s =>
    match findOcc old s with
    | none => s
    | some i => s.take i ++ new ++ pyReplaceF old new fuel (s.drop (i + old.length))

/-- Python `s.replace(old, new)` for nonempty `old`: replaces every
non-overlapping occurrence, scanning left to right. -/
def pyReplace (s old new : List Char) : List Char :=
  pyReplaceF old new s.length s

/-- Number of non-overlapping occurrences of `sep` in `s`, scanning left to
right (the occurrences Python `replace` rewrites). -/
def countOcc (sep : List Char) : ℕ → List Char → ℕ
  | 0, _ => 0
  | fuel + 1, s =>
    match findOcc sep s with
    | none => 0
    | some i => countOcc sep fuel (s.drop (i + sep.length)) + 1

/-- Occurrence count with the canonical fuel. -/
def pyCount (s sep : List Char) : ℕ := countOcc sep s.length s

/-- Leading decimal-digit run of a string: the text matched by the Python
regex `^\d+` (empty when the regex does not match). -/
def leadingDigits (s : List Char) : List Char :=
  s.takeWhile Char.isDigit

/-- Numeric value of a digit character. -/
def digitVal (c : Char) : ℕ := c.toNat - 48

/-- Value of a decimal digit string, as computed by Python `int`. -/
def digitsToNat (s : List Char) : ℕ :=
  s.foldl (fun acc c => 10 * acc + digitVal c) 0

/-- Character for a decimal digit below ten. -/
def decDigit (d : ℕ) : Char := Char.ofNat (48 + d)

/-- Fuel-driven decimal printer for naturals. -/
def natDecAux : ℕ → ℕ → List Char
  | 0, _ => []
  | fuel + 1, n =>
    if n < 10 then [decDigit n]
    else natDecAux fuel (n / 10) ++ [decDigit (n % 10)]

/-- Decimal representation of a natural number (Python `str`/`repr`). -/
def natDec (n : ℕ) : List Char := natDecAux (n + 1) n

/-- Left-pad a digit string with zeros to width `w` (Python `{:0wd}` for a
nonnegative value): the field simply grows when the number is wider. -/
def padZero (w : ℕ) (l : List Char) : List Char :=
  List.replicate (w - l.length) '0' ++ l

/-- Python `f"{n:0wd}"` for an integer: zero-padded to width `w`, with the
sign leading the zeros for a negative value. -/
def intPad (w : ℕ) (n : ℤ) : List Char :=
  if n < 0 then '-' :: padZero (w - 1) (natDec n.natAbs) else padZero w (natDec n.toNat)

/-- Last `/`-separated component of a path (`os.path.basename` for the simple
paths this program builds). -/
def pyBasename (p : List Char) : List Char :=
  (pySplit ['/'] p).getLast!

/-- Python `os.path.join(a, b)` for the cases arising here. -/
def pyJoin (a b : List Char) : List Char :=
  if a.isEmpty then b
  else if b.headI = '/' then b
  else if a.getLast? == some '/' then a ++ b
  else a ++ '/' :: b

/-- Stem of a path (`pathlib.Path(p).stem`): the final component without its
last extension; a leading dot alone does not start an extension. -/
def pyStem (p : List Char) : List Char :=
  let name := pyBasename p
  match findOcc ['.'] name.reverse with
  | none => name
  | some i =>
    if i + 1 = name.length then name  -- the only dot is the leading one
    else name.take (name.length - i - 1)

/-! ### Exact model of IEEE-754 binary64 arithmetic

A finite double is the rational it denotes.  `fl q` rounds the exact
rational `q` to 53 significant bits, round-to-nearest, ties-to-even,
with unbounded exponent (no value reachable in this program comes near
the binary64 overflow or subnormal thresholds). -/

/-- Round a rational to the nearest integer, ties to even. -/
def rne (x : ℚ) : ℤ :=
  if x - (⌊x⌋ : ℚ) < 1 / 2 then ⌊x⌋
  else if (1 : ℚ) / 2 < x - (⌊x⌋ : ℚ) then ⌊x⌋ + 1
  else if ⌊x⌋ % 2 = 0 then ⌊x⌋ else ⌊x⌋ + 1

/-- Fuel-driven base-2 integer logarithm of a rational `≥ 1`:
`ilogAux fuel q = ⌊log₂ q⌋` whenever `1 ≤ q < 2 ^ fuel`. -/
def ilogAux : ℕ → ℚ → ℕ
  | 0, _ => 0
  | fuel + 1, q => if q < 2 then 0 else ilogAux fuel (q / 2) + 1

/-- Floor base-2 logarithm of a positive rational (adequate for
`2 ^ (-128) < q < 2 ^ 128`, far beyond anything reachable here). -/
def qlog2 (q : ℚ) : ℤ :=
  if 1 ≤ q then ilogAux 128 q
  else if q * 2 ^ ilogAux 128 q⁻¹ = 1 then -(ilogAux 128 q⁻¹ : ℤ)
  else -(ilogAux 128 q⁻¹ : ℤ) - 1

/-- Round an exact rational to an IEEE-754 binary64 value (53-bit
significand, round to nearest, ties to even, unbounded exponent). -/
def fl (q : ℚ) : ℚ :=
  if q = 0 then 0
  else (rne (q * 2 ^ (52 - qlog2 |q|)) : ℚ) * 2 ^ (qlog2 |q| - 52)

/-- Python float `/`: correctly rounded division. -/
def pyDiv (a b : ℚ) : ℚ := fl (a / b)

/-- Python float `//`: the floor of the exact quotient, returned as a float.
For the magnitudes in this program the floor is exactly representable. -/
def pyFloorDiv (a b : ℚ) : ℚ := fl ((⌊a / b⌋ : ℤ) : ℚ)

/-- Python float `%` for positive operands: C `fmod`, which is exact
(the remainder of two representable values is representable). -/
def pyMod (a b : ℚ) : ℚ := a - b * ((⌊a / b⌋ : ℤ) : ℚ)

/-- Python float `*`: correctly rounded multiplication. -/
def pyMul (a b : ℚ) : ℚ := fl (a * b)

/-- Python float `-`: correctly rounded subtraction. -/
def pySub (a b : ℚ) : ℚ := fl (a - b)

/-- Python `int()` on a float: truncation toward zero. -/
def pyInt (x : ℚ) : ℤ := if x < 0 then ⌈x⌉ else ⌊x⌋

/-! ### `srt2clip_b.py` -/

/-- Python exception kinds raised by the modelled code. -/
inductive PyErr where
  | valueError : PyErr
  | indexError : PyErr
deriving DecidableEq, Repr

instance {α β : Type} [DecidableEq α] [DecidableEq β] : DecidableEq (Except α β) := fun
  | .ok a, .ok b => decidable_of_iff (a = b) (by simp)
  | .error a, .error b => decidable_of_iff (a = b) (by simp)
  | .ok _, .error _ => isFalse (by simp)
  | .error _, .ok _ => isFalse (by simp)

/-- One subtitle entry as built by `read_srt_file`:
`{"idx": .., "start": .., "end": .., "text": ..}`. -/
structure Subtitle where
  idx : ℕ
  start : ℕ
  stop : ℕ
  text : List Char
deriving DecidableEq, Repr

/-- Model of `parse_srt_time` (`srt2clip_b.py` lines 10-17; the identical
copy in `srt2clip_webui.py` lines 52-58): `re.match` of
`(\d{2}):(\d{2}):(\d{2}),(\d{3})` anchored at the start of the string,
trailing characters ignored; on success
`hours*3600*1000 + minutes*60*1000 + seconds*1000 + milliseconds`,
otherwise `ValueError`. -/
def parse_srt_time (s : List Char) : Except PyErr ℕ :=
  match s with
  | h1 :: h2 :: c1 :: m1 :: m2 :: c2 :: s1 :: s2 :: c3 :: x1 :: x2 :: x3 :: _ =>
    if h1.isDigit && h2.isDigit && (c1 == ':') && m1.isDigit && m2.isDigit &&
        (c2 == ':') && s1.isDigit && s2.isDigit && (c3 == ',') &&
        x1.isDigit && x2.isDigit && x3.isDigit then
      .ok ((10 * digitVal h1 + digitVal h2) * 3600 * 1000 +
        (10 * digitVal m1 + digitVal m2) * 60 * 1000 +
        (10 * digitVal s1 + digitVal s2) * 1000 +
        (100 * digitVal x1 + 10 * digitVal x2 + digitVal x3))
    else .error .valueError
  | _ => .error .valueError

/-- Boolean form of the regex `(\d{2}):(\d{2}):(\d{2}),(\d{3})` matching at
the start of the string. -/
def timePatternAt (s : List Char) : Bool :=
  match s with
  | h1 :: h2 :: c1 :: m1 :: m2 :: c2 :: s1 :: s2 :: c3 :: x1 :: x2 :: x3 :: _ =>
    h1.isDigit && h2.isDigit && (c1 == ':') && m1.isDigit && m2.isDigit &&
      (c2 == ':') && s1.isDigit && s2.isDigit && (c3 == ',') &&
      x1.isDigit && x2.isDigit && x3.isDigit
  | _ => false

/-- Per-block body of the loop in `read_srt_file` (lines 28-48).
`ok none` models `continue` (block silently skipped), `error` models an
uncaught exception: `ValueError` from unpacking `time_line.split(" --> ")`
into two names when the part count is not exactly 2, or from
`parse_srt_time`. -/
def parseBlock (block : List Char) : Except PyErr (Option Subtitle) :=
  match pySplit ['\n'] block with
  | l0 :: l1 :: l2 :: _ =>
    let digits := leadingDigits l0
    if digits.isEmpty then .ok none
    else
      match pySplit (' ' :: '-' :: '-' :: '>' :: [' ']) l1 with
      | [st, en] => do
        let s ← parse_srt_time st
        let e ← parse_srt_time en
        .ok (some ⟨digitsToNat digits, s, e, l2⟩)
      | _ => .error .valueError
  | _ => .ok none

/-- Sequential traversal of the blocks, collecting the parsed subtitles in
order and propagating the first exception. -/
def readBlocks : List (List Char) → Except PyErr (List Subtitle)
  | [] => .ok []
  | b :: bs => do
    let r ← parseBlock b
    let rest ← readBlocks bs
    match r with
    | none => .ok rest
    | some s => .ok (s :: rest)

/-- Model of `read_srt_file` (lines 20-50), applied to the file's text:
split on blank lines (`"\n\n"`), strip each block, drop blocks that strip
to nothing, then parse each block in order. -/
def read_srt_file (content : List Char) : Except PyErr (List Subtitle) :=
  readBlocks (((pySplit ('\n' :: ['\n']) content).map pyStrip).filter (fun b => !b.isEmpty))

/-- Model of `format_time` (lines 53-61; identical copy in
`srt2clip_webui.py` lines 67-75).  `milliseconds / 1000` is Python float
division; every subsequent step is float arithmetic followed by `int`
truncation, exactly as in the source. -/
def format_time (m : ℕ) : List Char :=
  let ts := pyDiv (m : ℚ) 1000
  let hours := pyInt (pyFloorDiv ts 3600)
  let minutes := pyInt (pyFloorDiv (pyMod ts 3600) 60)
  let seconds := pyInt (pyMod ts 60)
  let ms := pyInt (pyMul (pySub ts ((pyInt ts : ℤ) : ℚ)) 1000)
  intPad 2 hours ++ ':' :: intPad 2 minutes ++ ':' :: intPad 2 seconds ++
    ',' :: intPad 3 ms

/-! ### Audio model (pydub at the interface level)

An `AudioSegment` is its duration in milliseconds.  `audio[start:end]`
slices by milliseconds with Python slice clamping; `AudioSegment.silent`
has the requested duration; `+` concatenates. -/

/-- Duration of `audio[start:end]` for a clip of duration `n` ms:
Python slice semantics clamp both bounds to `[0, n]`. -/
def pySliceLen (start stop n : ℕ) : ℕ :=
  min stop n - min start n

/-- Model of `add_silence` (`srt2clip_b.py` lines 64-67; identical copy in
`srt2clip_webui.py` lines 61-64): `silence + audio + silence`. -/
def add_silence (audio silence_duration : ℕ) : ℕ :=
  silence_duration + audio + silence_duration

/-- Everything `generate_files` produces for one subtitle record
(lines 80-112): the two output file names, the padded clip's duration, the
re-based caption fields (`start_time_new`, `end_time_new`, index literal
`1`), and the text written to the `.srt` file. -/
structure ClipOut where
  audioName : List Char
  audioLen : ℕ
  capIdx : ℕ
  capStart : ℕ
  capEnd : ℕ
  capText : List Char
  srtName : List Char
  srtContent : List Char
deriving DecidableEq, Repr

/-- Per-record body of the loop in `generate_files` (lines 80-112), given
the decoded audio's duration `audioLen` ms. -/
def clipOf (base : List Char) (audioLen silence : ℕ) (sub : Subtitle) : ClipOut :=
  let chunk := pySliceLen sub.start sub.stop audioLen
  let dur := add_silence chunk silence
  { audioName := base ++ '_' :: intPad 3 (sub.idx : ℤ) ++ ('.' :: 'w' :: 'a' :: ['v'])
    audioLen := dur
    capIdx := 1
    capStart := silence
    capEnd := dur - silence
    capText := sub.text
    srtName := base ++ '_' :: intPad 3 (sub.idx : ℤ) ++ ('.' :: 's' :: 'r' :: ['t'])
    srtContent := '1' :: '\n' :: format_time silence ++
      (' ' :: '-' :: '-' :: '>' :: [' ']) ++ format_time (dur - silence) ++
      '\n' :: sub.text ++ ['\n'] }

/-- Filesystem effects of the batch path, in program order. -/
inductive FsOp where
  | makedirs (path : List Char) (exist_ok : Bool) : FsOp
  | writeWav (path : List Char) (durationMs : ℕ) : FsOp
  | writeSrt (path : List Char) (content : List Char) : FsOp
deriving DecidableEq, Repr

/-- File operations of one `generate_files` loop iteration: export the
padded clip as `{base}_{idx:03d}.wav`, then write `{base}_{idx:03d}.srt`. -/
def clipOps (outputDir : List Char) (c : ClipOut) : List FsOp :=
  [.writeWav (pyJoin outputDir c.audioName) c.audioLen,
   .writeSrt (pyJoin outputDir c.srtName) c.srtContent]

/-- Model of `generate_files` (lines 70-112): parse the caption file's text,
derive `base_name` from the caption path's stem, and process every record in
order.  Fails (uncaught exception) exactly when the parse fails. -/
def generate_files (srtPath content : List Char) (audioLen : ℕ)
    (outputDir : List Char) (silence : ℕ) : Except PyErr (List FsOp) := do
  let subs ← read_srt_file content
  let base := pyStem srtPath
  .ok ((subs.map (clipOf base audioLen silence)).flatMap (clipOps outputDir))

/-- Model of `srt2clip` (lines 115-117): `os.makedirs(output_dir,
exist_ok=True)` first, then `generate_files` with the module-level default
silence of 500 ms. -/
def srt2clip (srtPath content : List Char) (audioLen : ℕ)
    (outputDir : List Char) : Except PyErr (List FsOp) := do
  let ops ← generate_files srtPath content audioLen outputDir 500
  .ok (.makedirs outputDir true :: ops)

/-! ### `srt2clip_webui.py` -/

/-- Model of `parse_srt` (`srt2clip_webui.py` lines 10-28) after
`content.splitlines()`: read the lines in strides of four
(`for i in range(0, len(lines), 4)` with `if i + 3 >= len(lines): break`),
producing rows `[idx, start_time, end_time, text]`; the fourth line of each
stride is never inspected.  `lines[i+1].split(" --> ")[1]` raises
`IndexError` when the separator is absent. -/
def parseRows : List (List Char) → Except PyErr (List (List (List Char)))
  | a :: b :: c :: _ :: rest => do
    match pySplit (' ' :: '-' :: '-' :: '>' :: [' ']) b with
    | st :: en :: _ =>
      let rows ← parseRows rest
      .ok ([a, st, en, c] :: rows)
    | _ => .error .indexError
  | _ => .ok []

/-- Model of `parse_srt` (lines 10-28) on the file's text. -/
def parse_srt (content : List Char) : Except PyErr (List (List (List Char))) :=
  parseRows (pySplitlines content)

/-- Text block `save_edits` writes for one table row of exactly four cells
(`srt2clip_webui.py` lines 43-46). -/
def rowTemplate (idx st en tx : List Char) : List Char :=
  idx ++ '\n' :: st ++ (' ' :: '-' :: '-' :: '>' :: [' ']) ++ en ++ '\n' :: tx ++ ('\n' :: ['\n'])

/-- Model of `save_edits` (lines 37-48): the text written back to the `.srt`
file.  Rows without exactly four cells are skipped (with a console
diagnostic, not modelled). -/
def save_edits (rows : List (List (List Char))) : List Char :=
  rows.flatMap (fun row =>
    match row with
    | [idx, st, en, tx] => rowTemplate idx st en tx
    | _ => [])

/-- User-facing notices of the interactive save path: `gr.Warning` and
`gr.Info`. -/
inductive Notice where
  | warning (msg : List Char) : Notice
  | info (msg : List Char) : Notice
deriving DecidableEq, Repr

/-- Abstract filesystem for the interactive save path: the set of existing
directories and the files (path, payload id). -/
structure Fs where
  dirs : List (List Char)
  files : List (List Char × ℕ)
deriving DecidableEq, Repr

/-- Directory-existence test (`Path(p).is_dir()`). -/
def fsIsDir (fs : Fs) (p : List Char) : Bool :=
  fs.dirs.contains p

/-- Model of `shutil.move(src, dstDir)` onto an existing directory: the file
leaves its source path and appears under `dstDir` with its base name.
A missing source raises (one of the failure modes the source's
`try`/`except` guards against). -/
def fsMove (fs : Fs) (src dstDir : List Char) : Except PyErr Fs :=
  match fs.files.lookup src with
  | none => .error .valueError
  | some payload =>
    .ok ⟨fs.dirs, (pyJoin dstDir (pyBasename src), payload) ::
      (fs.files.filter (fun f => ¬(f.1 = src)))⟩

/-- Model of `save_clip` (`srt2clip_webui.py` lines 112-123).  The guard
rejects a save path that is not an existing directory or is blank; otherwise
the audio path is derived with `text_clip.replace(".srt", ".wav")` and both
files are moved, any exception from the moves being caught and reported as a
warning.  Returns the final filesystem and the notices, in order. -/
def save_clip (fs : Fs) (text_clip save_path : List Char) : Fs × List Notice :=
  if !fsIsDir fs save_path || (pyStrip save_path).isEmpty then
    (fs, [.warning ('b' :: 'a' :: ['d'])])
  else
    let audio_clip := pyReplace text_clip
      ('.' :: 's' :: 'r' :: ['t']) ('.' :: 'w' :: 'a' :: ['v'])
    match fsMove fs audio_clip save_path with
    | .error _ => (fs, [.warning ('e' :: 'r' :: ['r'])])
    | .ok fs1 =>
      match fsMove fs1 text_clip save_path with
      | .error _ => (fs1, [.warning ('e' :: 'r' :: ['r'])])
      | .ok fs2 =>
        (fs2, [.info (pyBasename text_clip), .info (pyBasename audio_clip)])

/-- A block that `read_srt_file` silently skips, as described by the spec:
fewer than three lines, or a first line with no leading integer run. -/
def malformedBlock (b : List Char) : Bool :=
  match pySplit ['\n'] b with
  | l0 :: _ :: _ :: _ => (leadingDigits l0).isEmpty
  | _ => true

/-- Boolean form of the regex `\d{2}:\d{2}:\d{2},\d{3}` matching the whole
string (exactly 12 characters). -/
def fmtPattern (s : List Char) : Bool :=
  match s with
  | [a, b, c, d, e, f, g, h, i, j, k, l] =>
    a.isDigit && b.isDigit && (c == ':') && d.isDigit && e.isDigit && (f == ':') &&
      g.isDigit && h.isDigit && (i == ',') && j.isDigit && k.isDigit && l.isDigit
  | _ => false

/-! ### Facts about the binary64 rounding model -/

lemma rne_intCast (n : ℤ) : rne (n : ℚ) = n := by
  unfold rne
  rw [Int.floor_intCast]
  simp

lemma rne_le_add_half (x : ℚ) : (rne x : ℚ) ≤ x + 1 / 2 := by
  unfold rne
  split_ifs with h1 h2 h3 <;> push_cast <;>
    linarith [Int.floor_le x, Int.lt_floor_add_one x]

lemma sub_half_le_rne (x : ℚ) : x - 1 / 2 ≤ (rne x : ℚ) := by
  unfold rne
  split_ifs with h1 h2 h3 <;> push_cast <;>
    linarith [Int.floor_le x, Int.lt_floor_add_one x]

lemma rne_eval_lt {x : ℚ} {n : ℤ} (h1 : ⌊x⌋ = n) (h2 : x - (n : ℚ) < 1 / 2) :
    rne x = n := by
  unfold rne
  rw [h1, if_pos h2]

lemma ilogAux_corr : ∀ (fuel : ℕ) (q : ℚ), 1 ≤ q → q < 2 ^ fuel →
    (2 : ℚ) ^ ilogAux fuel q ≤ q ∧ q < 2 ^ (ilogAux fuel q + 1) := by
  intro fuel
  induction fuel with
  | zero => intro q h1 h2; norm_num at h2; exact absurd (lt_of_le_of_lt h1 h2) (by norm_num)
  | succ fuel ih =>
    intro q h1 h2
    unfold ilogAux
    by_cases hq : q < 2
    · rw [if_pos hq]
      constructor
      · simpa using h1
      · simpa using hq
    · rw [if_neg hq]
      push_neg at hq
      have h1' : (1 : ℚ) ≤ q / 2 := by linarith
      have h2' : q / 2 < 2 ^ fuel := by
        rw [div_lt_iff₀ (by norm_num)]
        calc q < 2 ^ (fuel + 1) := h2
        _ = 2 ^ fuel * 2 := by ring
      obtain ⟨ha, hb⟩ := ih (q / 2) h1' h2'
      set i := ilogAux fuel (q / 2) with hi
      constructor
      · rw [pow_succ]
        calc (2 : ℚ) ^ i * 2 ≤ q / 2 * 2 := mul_le_mul_of_nonneg_right ha (by norm_num)
        _ = q := by ring
      · calc q = q / 2 * 2 := by ring
        _ < 2 ^ (i + 1) * 2 := mul_lt_mul_of_pos_right hb (by norm_num)
        _ = 2 ^ (i + 1 + 1) := by ring

lemma qlog2_eq {q : ℚ} {a : ℤ} (h1 : (2 : ℚ) ^ a ≤ q) (h2 : q < 2 ^ (a + 1))
    (ha1 : -120 ≤ a) (ha2 : a ≤ 120) : qlog2 q = a := by
  have h2pos : (0 : ℚ) < 2 := by norm_num
  have hq0 : 0 < q := lt_of_lt_of_le (zpow_pos h2pos a) h1
  unfold qlog2
  by_cases hq1 : 1 ≤ q
  · rw [if_pos hq1]
    have hqlt : q < 2 ^ (128 : ℕ) := by
      calc q < 2 ^ (a + 1) := h2
      _ ≤ 2 ^ (121 : ℤ) := zpow_le_zpow_right₀ (by norm_num) (by omega)
      _ = 2 ^ (121 : ℕ) := by norm_num
      _ < 2 ^ (128 : ℕ) := by norm_num
    obtain ⟨ca, cb⟩ := ilogAux_corr 128 q hq1 hqlt
    have ca' : (2 : ℚ) ^ (ilogAux 128 q : ℤ) ≤ q := by
      rw [zpow_natCast]; exact ca
    have cb' : q < (2 : ℚ) ^ ((ilogAux 128 q : ℤ) + 1) := by
      have he : ((ilogAux 128 q : ℤ) + 1) = ((ilogAux 128 q + 1 : ℕ) : ℤ) := by push_cast; ring
      rw [he, zpow_natCast]; exact cb
    have hlt1 : (2 : ℚ) ^ a < 2 ^ ((ilogAux 128 q : ℤ) + 1) := lt_of_le_of_lt h1 cb'
    have hlt2 : (2 : ℚ) ^ (ilogAux 128 q : ℤ) < 2 ^ (a + 1) := lt_of_le_of_lt ca' h2
    rw [zpow_lt_zpow_iff_right₀ (by norm_num)] at hlt1 hlt2
    omega
  · rw [if_neg hq1]
    push_neg at hq1
    have hne : q ≠ 0 := hq0.ne'
    have hinv0 : 0 < q⁻¹ := inv_pos.mpr hq0
    have hinv1 : (1 : ℚ) ≤ q⁻¹ := by
      nlinarith [mul_inv_cancel₀ hne]
    have hx : (1 : ℚ) ≤ q * 2 ^ (120 : ℤ) := by
      have h120 : (2 : ℚ) ^ (-120 : ℤ) ≤ q :=
        le_trans (zpow_le_zpow_right₀ (by norm_num) (by omega)) h1
      calc (1 : ℚ) = 2 ^ (-120 : ℤ) * 2 ^ (120 : ℤ) := by
            rw [← zpow_add₀ (by norm_num : (2 : ℚ) ≠ 0)]; norm_num
      _ ≤ q * 2 ^ (120 : ℤ) := mul_le_mul_of_nonneg_right h120 (zpow_pos h2pos _).le
    have hinvlt : q⁻¹ < 2 ^ (128 : ℕ) := by
      have hstep : q⁻¹ ≤ 2 ^ (120 : ℤ) := by
        have hm := mul_le_mul_of_nonneg_left hx hinv0.le
        rw [mul_one] at hm
        calc q⁻¹ ≤ q⁻¹ * (q * 2 ^ (120 : ℤ)) := hm
        _ = q⁻¹ * q * 2 ^ (120 : ℤ) := by ring
        _ = 2 ^ (120 : ℤ) := by rw [inv_mul_cancel₀ hne, one_mul]
      calc q⁻¹ ≤ 2 ^ (120 : ℤ) := hstep
      _ = 2 ^ (120 : ℕ) := by norm_num
      _ < 2 ^ (128 : ℕ) := by norm_num
    obtain ⟨ca, cb⟩ := ilogAux_corr 128 q⁻¹ hinv1 hinvlt
    set j := ilogAux 128 q⁻¹ with hj
    have hA : q * 2 ^ (j : ℤ) ≤ 1 := by
      have hm := mul_le_mul_of_nonneg_left ca hq0.le
      rw [mul_inv_cancel₀ hne] at hm
      calc q * 2 ^ (j : ℤ) = q * 2 ^ (j : ℕ) := by rw [zpow_natCast]
      _ ≤ 1 := hm
    have hB : (1 : ℚ) < q * 2 ^ ((j : ℤ) + 1) := by
      have hm := mul_lt_mul_of_pos_left cb hq0
      rw [mul_inv_cancel₀ hne] at hm
      calc (1 : ℚ) < q * 2 ^ (j + 1 : ℕ) := hm
      _ = q * 2 ^ ((j : ℤ) + 1) := by
        rw [show ((j : ℤ) + 1) = ((j + 1 : ℕ) : ℤ) by push_cast; ring, zpow_natCast]
    have hqle : q ≤ 2 ^ (-(j : ℤ)) := by
      have := mul_le_mul_of_nonneg_right hA (zpow_pos h2pos (-(j : ℤ))).le
      rw [one_mul, mul_assoc, ← zpow_add₀ (by norm_num : (2 : ℚ) ≠ 0)] at this
      simpa using this
    have hqgt : 2 ^ (-(j : ℤ) - 1) < q := by
      have := mul_lt_mul_of_pos_right hB (zpow_pos h2pos (-(j : ℤ) - 1))
      rw [one_mul, mul_assoc, ← zpow_add₀ (by norm_num : (2 : ℚ) ≠ 0)] at this
      simpa using this
    split_ifs with htie
    · -- q = 2 ^ (-j) exactly
      have hqe : q = 2 ^ (-(j : ℤ)) := by
        have h' : q * 2 ^ (j : ℤ) = 1 := by
          rw [zpow_natCast]; exact htie
        have h'' : q * 2 ^ (j : ℤ) * 2 ^ (-(j : ℤ)) = q := by
          rw [mul_assoc, ← zpow_add₀ (by norm_num : (2 : ℚ) ≠ 0)]
          simp
        calc q = q * 2 ^ (j : ℤ) * 2 ^ (-(j : ℤ)) := h''.symm
        _ = 1 * 2 ^ (-(j : ℤ)) := by rw [h']
        _ = 2 ^ (-(j : ℤ)) := one_mul _
      have e1 : (2 : ℚ) ^ a ≤ 2 ^ (-(j : ℤ)) := hqe ▸ h1
      have e2 : (2 : ℚ) ^ (-(j : ℤ)) < 2 ^ (a + 1) := hqe ▸ h2
      rw [zpow_le_zpow_iff_right₀ (by norm_num : (1 : ℚ) < 2)] at e1
      rw [zpow_lt_zpow_iff_right₀ (by norm_num : (1 : ℚ) < 2)] at e2
      omega
    · -- q lies strictly between 2 ^ (-j - 1) and 2 ^ (-j)
      have hqlt' : q < 2 ^ (-(j : ℤ)) := by
        rcases lt_or_eq_of_le hqle with h | h
        · exact h
        · exfalso
          apply htie
          rw [h, ← zpow_natCast (2 : ℚ) j, ← zpow_add₀ (by norm_num : (2 : ℚ) ≠ 0)]
          simp
      have e1 : (2 : ℚ) ^ a < 2 ^ (-(j : ℤ)) := lt_of_le_of_lt h1 hqlt'
      have e2 : (2 : ℚ) ^ (-(j : ℤ) - 1) < 2 ^ (a + 1) := lt_trans hqgt h2
      rw [zpow_lt_zpow_iff_right₀ (by norm_num : (1 : ℚ) < 2)] at e1 e2
      omega

lemma fl_zero : fl 0 = 0 := by unfold fl; simp

lemma fl_eval {q : ℚ} {a : ℤ} (h1 : (2 : ℚ) ^ a ≤ q) (h2 : q < 2 ^ (a + 1))
    (ha1 : -120 ≤ a) (ha2 : a ≤ 120) :
    fl q = (rne (q * 2 ^ (52 - a)) : ℚ) * 2 ^ (a - 52) := by
  have hq0 : 0 < q := lt_of_lt_of_le (zpow_pos (by norm_num) a) h1
  unfold fl
  rw [if_neg hq0.ne', abs_of_pos hq0, qlog2_eq h1 h2 ha1 ha2]

lemma zpow_split_half (a : ℤ) :
    ((2 : ℚ) ^ (52 - a) * 2 ^ (a - 52) = 1) ∧ (2 : ℚ) ^ (a - 52) = 2 ^ (a - 53) * 2 := by
  constructor
  · rw [← zpow_add₀ (by norm_num : (2 : ℚ) ≠ 0),
      show (52 - a) + (a - 52) = 0 from by omega, zpow_zero]
  · rw [← zpow_add_one₀ (by norm_num : (2 : ℚ) ≠ 0) (a - 53)]
    congr 1
    omega

lemma fl_le {q : ℚ} {a : ℤ} (h1 : (2 : ℚ) ^ a ≤ q) (h2 : q < 2 ^ (a + 1))
    (ha1 : -120 ≤ a) (ha2 : a ≤ 120) : fl q ≤ q + 2 ^ (a - 53) := by
  rw [fl_eval h1 h2 ha1 ha2]
  have hr := rne_le_add_half (q * 2 ^ (52 - a))
  have hm := mul_le_mul_of_nonneg_right hr (zpow_pos (by norm_num : (0:ℚ) < 2) (a - 52)).le
  have hexp : (q * 2 ^ (52 - a) + 1 / 2) * 2 ^ (a - 52) = q + 2 ^ (a - 53) := by
    obtain ⟨e1, e2⟩ := zpow_split_half a
    calc (q * 2 ^ (52 - a) + 1 / 2) * 2 ^ (a - 52)
        = q * (2 ^ (52 - a) * 2 ^ (a - 52)) + 2 ^ (a - 52) / 2 := by ring
    _ = q + 2 ^ (a - 53) := by rw [e1, e2]; ring
  rw [hexp] at hm
  exact hm

lemma le_fl {q : ℚ} {a : ℤ} (h1 : (2 : ℚ) ^ a ≤ q) (h2 : q < 2 ^ (a + 1))
    (ha1 : -120 ≤ a) (ha2 : a ≤ 120) : q - 2 ^ (a - 53) ≤ fl q := by
  rw [fl_eval h1 h2 ha1 ha2]
  have hr := sub_half_le_rne (q * 2 ^ (52 - a))
  have hm := mul_le_mul_of_nonneg_right hr (zpow_pos (by norm_num : (0:ℚ) < 2) (a - 52)).le
  have hexp : (q * 2 ^ (52 - a) - 1 / 2) * 2 ^ (a - 52) = q - 2 ^ (a - 53) := by
    obtain ⟨e1, e2⟩ := zpow_split_half a
    calc (q * 2 ^ (52 - a) - 1 / 2) * 2 ^ (a - 52)
        = q * (2 ^ (52 - a) * 2 ^ (a - 52)) - 2 ^ (a - 52) / 2 := by ring
    _ = q - 2 ^ (a - 53) := by rw [e1, e2]; ring
  rw [hexp] at hm
  exact hm

lemma rne_natCast (n : ℕ) : rne (n : ℚ) = (n : ℤ) := by
  have := rne_intCast (n : ℤ)
  push_cast at this
  exact_mod_cast this

/-- A value `k * 2 ^ f` with at most 53 significant bits is exactly
representable: rounding does not change it. -/
lemma fl_dyadic {k : ℕ} {f : ℤ} (hk : 0 < k) (hk2 : k ≤ 2 ^ 53)
    (hf1 : -90 ≤ f) (hf2 : f ≤ 60) : fl ((k : ℚ) * 2 ^ f) = (k : ℚ) * 2 ^ f := by
  have h2ne : (2 : ℚ) ≠ 0 := by norm_num
  have hkq1 : (1 : ℚ) ≤ (k : ℚ) := by exact_mod_cast hk
  have hkqlt : (k : ℚ) < 2 ^ (128 : ℕ) := by
    calc (k : ℚ) ≤ ((2 ^ 53 : ℕ) : ℚ) := by exact_mod_cast hk2
    _ < 2 ^ (128 : ℕ) := by norm_num
  obtain ⟨ca, cb⟩ := ilogAux_corr 128 (k : ℚ) hkq1 hkqlt
  set L := ilogAux 128 (k : ℚ) with hL
  have hL53 : L ≤ 53 := by
    have : (2 : ℚ) ^ L ≤ 2 ^ (53 : ℕ) := by
      calc (2 : ℚ) ^ L ≤ (k : ℚ) := ca
      _ ≤ ((2 ^ 53 : ℕ) : ℚ) := by exact_mod_cast hk2
      _ = 2 ^ (53 : ℕ) := by norm_num
    exact le_of_not_lt fun h => absurd this (not_le.mpr (by
      exact pow_lt_pow_right₀ (by norm_num) h))
  have hzf : (0 : ℚ) < 2 ^ f := zpow_pos (by norm_num) _
  have hb1 : (2 : ℚ) ^ (f + L) ≤ (k : ℚ) * 2 ^ f := by
    rw [zpow_add₀ h2ne, zpow_natCast, mul_comm ((2:ℚ)^f)]
    exact mul_le_mul_of_nonneg_right ca hzf.le
  have hb2 : (k : ℚ) * 2 ^ f < 2 ^ (f + L + 1) := by
    have he : (2 : ℚ) ^ (f + L + 1) = 2 ^ (L + 1 : ℕ) * 2 ^ f := by
      rw [← zpow_natCast (2 : ℚ) (L + 1), ← zpow_add₀ h2ne]
      congr 1
      push_cast
      ring
    rw [he]
    exact mul_lt_mul_of_pos_right cb hzf
  rw [fl_eval hb1 hb2 (by omega) (by omega)]
  by_cases hc : L ≤ 52
  · have hsc : (k : ℚ) * 2 ^ f * 2 ^ (52 - (f + L)) = ((k * 2 ^ (52 - L) : ℕ) : ℚ) := by
      push_cast
      rw [mul_assoc, ← zpow_add₀ h2ne, ← zpow_natCast (2 : ℚ) (52 - L)]
      congr 2
      omega
    rw [hsc, rne_natCast]
    push_cast
    rw [mul_assoc, ← zpow_natCast (2 : ℚ) (52 - L), ← zpow_add₀ h2ne]
    congr 2
    omega
  · -- L = 53 forces k = 2 ^ 53
    have hL' : L = 53 := by omega
    have hk53 : k = 2 ^ 53 := by
      have : (2 : ℚ) ^ (53 : ℕ) ≤ (k : ℚ) := by rw [← hL']; exact ca
      have hge : (2 : ℕ) ^ 53 ≤ k := by exact_mod_cast this
      omega
    subst hk53
    have hk53Q : ((2 ^ 53 : ℕ) : ℚ) = (2 : ℚ) ^ (53 : ℤ) := by norm_num
    have hsc : ((2 ^ 53 : ℕ) : ℚ) * 2 ^ f * 2 ^ (52 - (f + (L : ℤ))) = ((2 ^ 52 : ℕ) : ℚ) := by
      rw [hk53Q, hL', mul_assoc, ← zpow_add₀ h2ne]
      have hk52Q : ((2 ^ 52 : ℕ) : ℚ) = (2 : ℚ) ^ (52 : ℤ) := by norm_num
      rw [hk52Q, ← zpow_add₀ h2ne]
      congr 1
      omega
    rw [hsc, rne_natCast]
    have hcast : (((2 ^ 52 : ℕ) : ℤ) : ℚ) = (2 : ℚ) ^ (52 : ℤ) := by norm_num
    rw [hcast, hk53Q, hL', ← zpow_add₀ h2ne, ← zpow_add₀ h2ne]
    congr 1
    omega

/-- Exactness for small whole numbers. -/
lemma fl_natCast {n : ℕ} (hn : n ≤ 2 ^ 53) : fl (n : ℚ) = (n : ℚ) := by
  rcases Nat.eq_zero_or_pos n with h | h
  · subst h; simpa using fl_zero
  · have := fl_dyadic (f := 0) h hn (by norm_num) (by norm_num)
    simpa using this

lemma fl_intCast {v : ℤ} (h0 : 0 ≤ v) (h : v ≤ 2 ^ 53) : fl (v : ℚ) = (v : ℚ) := by
  lift v to ℕ using h0
  rw [Int.cast_natCast]
  exact_mod_cast fl_natCast (by exact_mod_cast h)

lemma fl_dyadic_q {k : ℚ} {f : ℤ} (n : ℕ) (hek : k = (n : ℚ)) (hn : 0 < n)
    (hn2 : n ≤ 2 ^ 53) (hf1 : -90 ≤ f) (hf2 : f ≤ 60) : fl (k * 2 ^ f) = k * 2 ^ f := by
  subst hek
  exact fl_dyadic hn hn2 hf1 hf2

lemma fl_nat_q {q : ℚ} (n : ℕ) (he : q = (n : ℚ)) (hn : n ≤ 2 ^ 53) : fl q = q := by
  subst he
  exact fl_natCast hn

lemma pyInt_eval {x : ℚ} {n : ℤ} (h0 : 0 ≤ x) (h : ⌊x⌋ = n) : pyInt x = n := by
  unfold pyInt
  rw [if_neg (not_lt.mpr h0), h]

lemma pyFloorDiv_eval {a b : ℚ} {v : ℤ} (h : ⌊a / b⌋ = v) (h0 : 0 ≤ v)
    (hv : v ≤ 2 ^ 53) : pyFloorDiv a b = (v : ℚ) := by
  unfold pyFloorDiv
  rw [h]
  exact fl_intCast h0 hv

lemma pyMod_eval {a b : ℚ} {v : ℤ} (h : ⌊a / b⌋ = v) : pyMod a b = a - b * v := by
  unfold pyMod
  rw [h]

/-! ### Concrete evaluations of `format_time` -/

lemma format_time_500 : format_time 500 = "00:00:00,500".toList := by
  have hts : pyDiv ((500 : ℕ) : ℚ) 1000 = 1 / 2 := by
    unfold pyDiv
    have he : ((500 : ℕ) : ℚ) / 1000 = (1 : ℚ) * 2 ^ (-1 : ℤ) := by norm_num
    rw [he, fl_dyadic_q 1 (by norm_num) (by norm_num) (by norm_num) (by norm_num) (by norm_num)]
    norm_num
  have hfd : pyFloorDiv (1 / 2 : ℚ) 3600 = ((0 : ℤ) : ℚ) :=
    pyFloorDiv_eval (by norm_num) (by norm_num) (by norm_num)
  have hmod : pyMod (1 / 2 : ℚ) 3600 = 1 / 2 := by
    rw [pyMod_eval (v := 0) (by norm_num)]; norm_num
  have hfd2 : pyFloorDiv (1 / 2 : ℚ) 60 = ((0 : ℤ) : ℚ) :=
    pyFloorDiv_eval (by norm_num) (by norm_num) (by norm_num)
  have hmod2 : pyMod (1 / 2 : ℚ) 60 = 1 / 2 := by
    rw [pyMod_eval (v := 0) (by norm_num)]; norm_num
  have hint0 : pyInt ((0 : ℤ) : ℚ) = 0 := pyInt_eval (by norm_num) (by norm_num)
  have hinth : pyInt (1 / 2 : ℚ) = 0 := pyInt_eval (by norm_num) (by norm_num)
  have hsub : pySub (1 / 2 : ℚ) ((0 : ℤ) : ℚ) = 1 / 2 := by
    unfold pySub
    norm_num
    have he : (1 / 2 : ℚ) = (1 : ℚ) * 2 ^ (-1 : ℤ) := by norm_num
    rw [he, fl_dyadic_q 1 (by norm_num) (by norm_num) (by norm_num) (by norm_num) (by norm_num)]
  have hmul : pyMul (1 / 2 : ℚ) 1000 = 500 := by
    unfold pyMul
    have he : (1 / 2 : ℚ) * 1000 = ((500 : ℕ) : ℚ) := by norm_num
    rw [he, fl_nat_q 500 rfl (by norm_num)]
    norm_num
  have hint500 : pyInt (500 : ℚ) = 500 := pyInt_eval (by norm_num) (by norm_num)
  simp only [format_time]
  rw [hts, hfd, hint0, hmod, hfd2, hmod2, hinth]
  rw [hsub, hmul, hint500]
  decide

lemma format_time_2000 : format_time 2000 = "00:00:02,000".toList := by
  have hts : pyDiv ((2000 : ℕ) : ℚ) 1000 = 2 := by
    unfold pyDiv
    have he : ((2000 : ℕ) : ℚ) / 1000 = ((2 : ℕ) : ℚ) := by norm_num
    rw [he, fl_nat_q 2 rfl (by norm_num)]
    norm_num
  have hfd : pyFloorDiv (2 : ℚ) 3600 = ((0 : ℤ) : ℚ) :=
    pyFloorDiv_eval (by norm_num) (by norm_num) (by norm_num)
  have hmod : pyMod (2 : ℚ) 3600 = 2 := by
    rw [pyMod_eval (v := 0) (by norm_num)]; norm_num
  have hfd2 : pyFloorDiv (2 : ℚ) 60 = ((0 : ℤ) : ℚ) :=
    pyFloorDiv_eval (by norm_num) (by norm_num) (by norm_num)
  have hmod2 : pyMod (2 : ℚ) 60 = 2 := by
    rw [pyMod_eval (v := 0) (by norm_num)]; norm_num
  have hint0 : pyInt ((0 : ℤ) : ℚ) = 0 := pyInt_eval (by norm_num) (by norm_num)
  have hint2 : pyInt (2 : ℚ) = 2 := pyInt_eval (by norm_num) (by norm_num)
  have hsub : pySub (2 : ℚ) ((2 : ℤ) : ℚ) = 0 := by
    unfold pySub
    norm_num [fl_zero]
  have hmul : pyMul (0 : ℚ) 1000 = 0 := by
    unfold pyMul
    norm_num [fl_zero]
  simp only [format_time]
  rw [hts, hfd, hint0, hmod, hfd2, hmod2, hint2]
  rw [hsub, hmul, hint0]
  decide

lemma format_time_1001 : format_time 1001 = "00:00:01,000".toList := by
  have hts : pyDiv ((1001 : ℕ) : ℚ) 1000 = (4508103226997866 : ℚ) * 2 ^ (-52 : ℤ) := by
    unfold pyDiv
    rw [fl_eval (a := 0) (by norm_num) (by norm_num) (by norm_num) (by norm_num)]
    rw [rne_eval_lt (n := 4508103226997866) (by norm_num) (by norm_num)]
    norm_num
  set N : ℚ := (4508103226997866 : ℚ) * 2 ^ (-52 : ℤ) with hN
  have hNval : N = 2254051613498933 / 2251799813685248 := by rw [hN]; norm_num
  have hfd : pyFloorDiv N 3600 = ((0 : ℤ) : ℚ) :=
    pyFloorDiv_eval (by rw [hNval]; norm_num) (by norm_num) (by norm_num)
  have hmod : pyMod N 3600 = N := by
    rw [pyMod_eval (v := 0) (by rw [hNval]; norm_num)]; norm_num
  have hfd2 : pyFloorDiv N 60 = ((0 : ℤ) : ℚ) :=
    pyFloorDiv_eval (by rw [hNval]; norm_num) (by norm_num) (by norm_num)
  have hmod2 : pyMod N 60 = N := by
    rw [pyMod_eval (v := 0) (by rw [hNval]; norm_num)]; norm_num
  have hint0 : pyInt ((0 : ℤ) : ℚ) = 0 := pyInt_eval (by norm_num) (by norm_num)
  have hintN : pyInt N = 1 := pyInt_eval (by rw [hNval]; norm_num) (by rw [hNval]; norm_num)
  have hsub : pySub N ((1 : ℤ) : ℚ) = (4503599627370 : ℚ) * 2 ^ (-52 : ℤ) := by
    unfold pySub
    rw [show N - ((1 : ℤ) : ℚ) = (4503599627370 : ℚ) * 2 ^ (-52 : ℤ) by rw [hN]; norm_num]
    rw [fl_dyadic_q 4503599627370 (by norm_num) (by norm_num) (by norm_num) (by norm_num)
      (by norm_num)]
  have hmul : pyMul ((4503599627370 : ℚ) * 2 ^ (-52 : ℤ)) 1000 =
      (4503599627370000 : ℚ) * 2 ^ (-52 : ℤ) := by
    unfold pyMul
    rw [show (4503599627370 : ℚ) * 2 ^ (-52 : ℤ) * 1000 =
      (4503599627370000 : ℚ) * 2 ^ (-52 : ℤ) by norm_num]
    rw [fl_dyadic_q 4503599627370000 (by norm_num) (by norm_num) (by norm_num) (by norm_num)
      (by norm_num)]
  have hintms : pyInt ((4503599627370000 : ℚ) * 2 ^ (-52 : ℤ)) = 0 :=
    pyInt_eval (by norm_num) (by norm_num)
  simp only [format_time]
  rw [hts, hfd, hint0, hmod, hfd2, hmod2, hintN]
  rw [hsub, hmul, hintms]
  decide

lemma format_time_360000000 : format_time 360000000 = "100:00:00,000".toList := by
  have hts : pyDiv ((360000000 : ℕ) : ℚ) 1000 = 360000 := by
    unfold pyDiv
    have he : ((360000000 : ℕ) : ℚ) / 1000 = ((360000 : ℕ) : ℚ) := by norm_num
    rw [he, fl_nat_q 360000 rfl (by norm_num)]
    norm_num
  have hfd : pyFloorDiv (360000 : ℚ) 3600 = ((100 : ℤ) : ℚ) :=
    pyFloorDiv_eval (by norm_num) (by norm_num) (by norm_num)
  have hmod : pyMod (360000 : ℚ) 3600 = 0 := by
    rw [pyMod_eval (v := 100) (by norm_num)]; norm_num
  have hfd2 : pyFloorDiv (0 : ℚ) 60 = ((0 : ℤ) : ℚ) :=
    pyFloorDiv_eval (by norm_num) (by norm_num) (by norm_num)
  have hmod2 : pyMod (360000 : ℚ) 60 = 0 := by
    rw [pyMod_eval (v := 6000) (by norm_num)]; norm_num
  have hint0 : pyInt ((0 : ℤ) : ℚ) = 0 := pyInt_eval (by norm_num) (by norm_num)
  have hint00 : pyInt (0 : ℚ) = 0 := pyInt_eval (by norm_num) (by norm_num)
  have hint100 : pyInt ((100 : ℤ) : ℚ) = 100 := pyInt_eval (by norm_num) (by norm_num)
  have hintts : pyInt (360000 : ℚ) = 360000 := pyInt_eval (by norm_num) (by norm_num)
  have hsub : pySub (360000 : ℚ) ((360000 : ℤ) : ℚ) = 0 := by
    unfold pySub
    norm_num [fl_zero]
  have hmul : pyMul (0 : ℚ) 1000 = 0 := by
    unfold pyMul
    norm_num [fl_zero]
  simp only [format_time]
  rw [hts, hfd, hint100, hmod, hfd2, hint0, hmod2, hint00, hintts]
  rw [hsub, hmul]
  rw [hint00]
  decide

/-- Claim C1.  The spec claims `TimeCodec.parse (TimeCodec.format m) = m`
for every integer `m` in `[0, 359999999]`.  The code violates this: at
`m = 1001` the float computation of the millisecond field truncates
`0.99999999999988…` to `0`, so `format_time 1001 = "00:00:01,000"`, which
parses back to `1000`, not `1001`.  (The spec is the clear intent — it lists
the round trip as a testable property — and the float-based digit
extraction in `format_time` is the slip.) -/
theorem C1_roundtrip_fails_at_1001 :
    format_time 1001 = "00:00:01,000".toList ∧
      parse_srt_time (format_time 1001) = .ok 1000 ∧ (1000 : ℕ) ≠ 1001 := by
  refine ⟨format_time_1001, ?_, by norm_num⟩
  rw [format_time_1001]
  decide

/-! ### Shape of the formatted time string -/

lemma decDigit_isDigit {d : ℕ} (h : d < 10) : (decDigit d).isDigit = true := by
  interval_cases d <;> decide

lemma natDec_lt10 {k : ℕ} (h : k < 10) : natDec k = [decDigit k] := by
  unfold natDec natDecAux
  rw [if_pos h]

lemma natDec_two {k : ℕ} (h1 : 10 ≤ k) (h2 : k < 100) :
    natDec k = [decDigit (k / 10), decDigit (k % 10)] := by
  obtain ⟨f, hf⟩ : ∃ f, k = f + 1 := ⟨k - 1, by omega⟩
  unfold natDec
  rw [show k + 1 = (k + 1 - 1) + 1 from by omega]
  unfold natDecAux
  rw [if_neg (by omega)]
  have hk10 : k / 10 < 10 := by omega
  rw [show k + 1 - 1 = (k - 1) + 1 from by omega]
  unfold natDecAux
  rw [if_pos hk10]
  rfl

lemma natDec_three {k : ℕ} (h1 : 100 ≤ k) (h2 : k < 1000) :
    natDec k = [decDigit (k / 100), decDigit (k / 10 % 10), decDigit (k % 10)] := by
  unfold natDec
  rw [show k + 1 = (k + 1 - 1) + 1 from by omega]
  unfold natDecAux
  rw [if_neg (by omega)]
  rw [show k + 1 - 1 = (k - 1) + 1 from by omega]
  unfold natDecAux
  rw [if_neg (by omega)]
  rw [show k - 1 = (k - 2) + 1 from by omega]
  unfold natDecAux
  have h100 : k / 10 / 10 < 10 := by omega
  rw [if_pos h100]
  have : k / 10 / 10 = k / 100 := by omega
  rw [this]
  rfl

lemma intPad2_spec {n : ℤ} (h0 : 0 ≤ n) (h : n < 100) :
    ∃ a b, intPad 2 n = [a, b] ∧ a.isDigit = true ∧ b.isDigit = true := by
  unfold intPad
  rw [if_neg (not_lt.mpr h0)]
  have hk : n.toNat < 100 := by omega
  by_cases h10 : n.toNat < 10
  · refine ⟨'0', decDigit n.toNat, ?_, by decide, decDigit_isDigit h10⟩
    rw [natDec_lt10 h10]
    rfl
  · refine ⟨decDigit (n.toNat / 10), decDigit (n.toNat % 10), ?_,
      decDigit_isDigit (by omega), decDigit_isDigit (by omega)⟩
    rw [natDec_two (by omega) hk]
    rfl

lemma intPad3_spec {n : ℤ} (h0 : 0 ≤ n) (h : n < 1000) :
    ∃ a b c, intPad 3 n = [a, b, c] ∧ a.isDigit = true ∧ b.isDigit = true ∧
      c.isDigit = true := by
  unfold intPad
  rw [if_neg (not_lt.mpr h0)]
  have hk : n.toNat < 1000 := by omega
  by_cases h10 : n.toNat < 10
  · refine ⟨'0', '0', decDigit n.toNat, ?_, by decide, by decide, decDigit_isDigit h10⟩
    rw [natDec_lt10 h10]
    rfl
  · by_cases h100 : n.toNat < 100
    · refine ⟨'0', decDigit (n.toNat / 10), decDigit (n.toNat % 10), ?_,
        by decide, decDigit_isDigit (by omega), decDigit_isDigit (by omega)⟩
      rw [natDec_two (by omega) h100]
      rfl
    · refine ⟨decDigit (n.toNat / 100), decDigit (n.toNat / 10 % 10),
        decDigit (n.toNat % 10), ?_,
        decDigit_isDigit (by omega), decDigit_isDigit (by omega),
        decDigit_isDigit (by omega)⟩
      rw [natDec_three (by omega) hk]
      rfl

lemma fmt_assembly {h mi se ms : ℤ} (hh0 : 0 ≤ h) (hh : h < 100)
    (hmi0 : 0 ≤ mi) (hmi : mi < 100) (hse0 : 0 ≤ se) (hse : se < 100)
    (hms0 : 0 ≤ ms) (hms : ms < 1000) :
    (intPad 2 h ++ ':' :: intPad 2 mi ++ ':' :: intPad 2 se ++
      ',' :: intPad 3 ms).length = 12 ∧
    fmtPattern (intPad 2 h ++ ':' :: intPad 2 mi ++ ':' :: intPad 2 se ++
      ',' :: intPad 3 ms) = true := by
  obtain ⟨a1, a2, ha, ha1, ha2⟩ := intPad2_spec hh0 hh
  obtain ⟨b1, b2, hb, hb1, hb2⟩ := intPad2_spec hmi0 hmi
  obtain ⟨c1, c2, hc, hc1, hc2⟩ := intPad2_spec hse0 hse
  obtain ⟨d1, d2, d3, hd, hd1, hd2, hd3⟩ := intPad3_spec hms0 hms
  rw [ha, hb, hc, hd]
  refine ⟨rfl, ?_⟩
  simp only [fmtPattern, List.cons_append, List.nil_append]
  rw [ha1, ha2, hb1, hb2, hc1, hc2, hd1, hd2, hd3]
  decide

/-- Rounding error bound that only needs an upper bound on the magnitude:
for `0 < q < 2 ^ (E + 1)` the absolute rounding error is at most
`2 ^ (E - 53)`. -/
lemma fl_le_of_pos {q : ℚ} {E : ℤ} (hq : 0 < q) (hlow : (2 : ℚ) ^ (-119 : ℤ) < q)
    (hE : q < 2 ^ (E + 1)) (hE2 : E ≤ 119) : fl q ≤ q + 2 ^ (E - 53) := by
  set a := Int.log 2 q with ha
  have h1 : (2 : ℚ) ^ a ≤ q := by
    have := Int.zpow_log_le_self (b := 2) (R := ℚ) (by norm_num) hq
    rwa [show (((2 : ℕ) : ℚ)) = (2 : ℚ) by norm_num] at this
  have h2 : q < (2 : ℚ) ^ (a + 1) := by
    have := Int.lt_zpow_succ_log_self (b := 2) (R := ℚ) (by norm_num) q
    rwa [show (((2 : ℕ) : ℚ)) = (2 : ℚ) by norm_num] at this
  have ha1 : -120 ≤ a := by
    have : (2 : ℚ) ^ (-119 : ℤ) < 2 ^ (a + 1) := lt_of_lt_of_le hlow (le_of_lt h2)
    rw [zpow_lt_zpow_iff_right₀ (by norm_num : (1 : ℚ) < 2)] at this
    omega
  have ha2 : a ≤ E := by
    have : (2 : ℚ) ^ a < 2 ^ (E + 1) := lt_of_le_of_lt h1 hE
    rw [zpow_lt_zpow_iff_right₀ (by norm_num : (1 : ℚ) < 2)] at this
    omega
  have hmono := zpow_le_zpow_right₀ (by norm_num : (1 : ℚ) ≤ 2)
    (show a - 53 ≤ E - 53 by omega)
  have hmain := fl_le h1 h2 (by omega) (by omega)
  linarith

lemma le_fl_of_pos {q : ℚ} {E : ℤ} (hq : 0 < q) (hlow : (2 : ℚ) ^ (-119 : ℤ) < q)
    (hE : q < 2 ^ (E + 1)) (hE2 : E ≤ 119) : q - 2 ^ (E - 53) ≤ fl q := by
  set a := Int.log 2 q with ha
  have h1 : (2 : ℚ) ^ a ≤ q := by
    have := Int.zpow_log_le_self (b := 2) (R := ℚ) (by norm_num) hq
    rwa [show (((2 : ℕ) : ℚ)) = (2 : ℚ) by norm_num] at this
  have h2 : q < (2 : ℚ) ^ (a + 1) := by
    have := Int.lt_zpow_succ_log_self (b := 2) (R := ℚ) (by norm_num) q
    rwa [show (((2 : ℕ) : ℚ)) = (2 : ℚ) by norm_num] at this
  have ha1 : -120 ≤ a := by
    have : (2 : ℚ) ^ (-119 : ℤ) < 2 ^ (a + 1) := lt_of_lt_of_le hlow (le_of_lt h2)
    rw [zpow_lt_zpow_iff_right₀ (by norm_num : (1 : ℚ) < 2)] at this
    omega
  have ha2 : a ≤ E := by
    have : (2 : ℚ) ^ a < 2 ^ (E + 1) := lt_of_le_of_lt h1 hE
    rw [zpow_lt_zpow_iff_right₀ (by norm_num : (1 : ℚ) < 2)] at this
    omega
  have hmono := zpow_le_zpow_right₀ (by norm_num : (1 : ℚ) ≤ 2)
    (show a - 53 ≤ E - 53 by omega)
  have hmain := le_fl h1 h2 (by omega) (by omega)
  linarith

lemma pyMod_bounds {ts : ℚ} (b : ℚ) (h0 : 0 ≤ ts) (hb : 0 < b) :
    0 ≤ pyMod ts b ∧ pyMod ts b < b := by
  unfold pyMod
  have h1 : ((⌊ts / b⌋ : ℤ) : ℚ) ≤ ts / b := Int.floor_le _
  have h2 : ts / b < ((⌊ts / b⌋ : ℤ) : ℚ) + 1 := Int.lt_floor_add_one _
  have e1 := mul_le_mul_of_nonneg_left h1 hb.le
  have e2 := mul_lt_mul_of_pos_left h2 hb
  have he : b * (ts / b) = ts := by field_simp
  constructor
  · rw [he] at e1; linarith
  · rw [he] at e2; linarith

lemma hours_bound {ts : ℚ} (h0 : 0 ≤ ts) (hlt : ts < 360000) :
    0 ≤ pyInt (pyFloorDiv ts 3600) ∧ pyInt (pyFloorDiv ts 3600) < 100 := by
  have hq0 : (0 : ℚ) ≤ ts / 3600 := by positivity
  have hfl0 : 0 ≤ ⌊ts / 3600⌋ := Int.floor_nonneg.mpr hq0
  have hfl100 : ⌊ts / 3600⌋ < 100 := by
    rw [Int.floor_lt]
    rw [div_lt_iff₀ (by norm_num : (0 : ℚ) < 3600)]
    push_cast
    linarith
  have heq : pyFloorDiv ts 3600 = ((⌊ts / 3600⌋ : ℤ) : ℚ) :=
    pyFloorDiv_eval rfl hfl0 (by omega)
  rw [heq, pyInt_eval (by positivity) (Int.floor_intCast _)]
  exact ⟨hfl0, hfl100⟩

lemma minutes_bound {ts : ℚ} (h0 : 0 ≤ ts) :
    0 ≤ pyInt (pyFloorDiv (pyMod ts 3600) 60) ∧
      pyInt (pyFloorDiv (pyMod ts 3600) 60) < 60 := by
  obtain ⟨hm0, hm1⟩ := pyMod_bounds 3600 h0 (by norm_num)
  have hq0 : (0 : ℚ) ≤ pyMod ts 3600 / 60 := by positivity
  have hfl0 : 0 ≤ ⌊pyMod ts 3600 / 60⌋ := Int.floor_nonneg.mpr hq0
  have hfl60 : ⌊pyMod ts 3600 / 60⌋ < 60 := by
    rw [Int.floor_lt]
    rw [div_lt_iff₀ (by norm_num : (0 : ℚ) < 60)]
    push_cast
    linarith
  have heq : pyFloorDiv (pyMod ts 3600) 60 = ((⌊pyMod ts 3600 / 60⌋ : ℤ) : ℚ) :=
    pyFloorDiv_eval rfl hfl0 (by omega)
  rw [heq, pyInt_eval (by positivity) (Int.floor_intCast _)]
  exact ⟨hfl0, hfl60⟩

lemma seconds_bound {ts : ℚ} (h0 : 0 ≤ ts) :
    0 ≤ pyInt (pyMod ts 60) ∧ pyInt (pyMod ts 60) < 60 := by
  obtain ⟨hm0, hm1⟩ := pyMod_bounds 60 h0 (by norm_num)
  rw [pyInt_eval hm0 rfl]
  refine ⟨Int.floor_nonneg.mpr hm0, ?_⟩
  rw [Int.floor_lt]
  push_cast
  linarith

lemma format_time_0 : format_time 0 = "00:00:00,000".toList := by
  have hts : pyDiv ((0 : ℕ) : ℚ) 1000 = 0 := by
    unfold pyDiv
    norm_num [fl_zero]
  have hfd : pyFloorDiv (0 : ℚ) 3600 = ((0 : ℤ) : ℚ) :=
    pyFloorDiv_eval (by norm_num) (by norm_num) (by norm_num)
  have hfd2 : pyFloorDiv (0 : ℚ) 60 = ((0 : ℤ) : ℚ) :=
    pyFloorDiv_eval (by norm_num) (by norm_num) (by norm_num)
  have hmod : pyMod (0 : ℚ) 3600 = 0 := by
    rw [pyMod_eval (v := 0) (by norm_num)]; norm_num
  have hmod2 : pyMod (0 : ℚ) 60 = 0 := by
    rw [pyMod_eval (v := 0) (by norm_num)]; norm_num
  have hint0 : pyInt ((0 : ℤ) : ℚ) = 0 := pyInt_eval (by norm_num) (by norm_num)
  have hint00 : pyInt (0 : ℚ) = 0 := pyInt_eval (by norm_num) (by norm_num)
  have hsub : pySub (0 : ℚ) ((0 : ℤ) : ℚ) = 0 := by
    unfold pySub
    norm_num [fl_zero]
  have hmul : pyMul (0 : ℚ) 1000 = 0 := by
    unfold pyMul
    norm_num [fl_zero]
  simp only [format_time]
  rw [hts, hfd, hint0, hmod, hfd2, hmod2, hint00]
  rw [hsub, hmul, hint00]
  decide

/-- The millisecond field of `format_time` stays within `[0, 999]` for every
input below 100 hours, despite the float round-off. -/
lemma ms_bound_main {m : ℕ} (hpos : 1 ≤ m) (hm : m ≤ 359999999) :
    0 ≤ pyInt (pyMul (pySub (pyDiv ((m : ℕ) : ℚ) 1000)
        ((pyInt (pyDiv ((m : ℕ) : ℚ) 1000) : ℤ) : ℚ)) 1000) ∧
      pyInt (pyMul (pySub (pyDiv ((m : ℕ) : ℚ) 1000)
        ((pyInt (pyDiv ((m : ℕ) : ℚ) 1000) : ℤ) : ℚ)) 1000) < 1000 := by
  have h2ne : (2 : ℚ) ≠ 0 := by norm_num
  set q : ℚ := ((m : ℕ) : ℚ) / 1000 with hq_def
  set Q : ℕ := m / 1000 with hQ_def
  set r : ℕ := m % 1000 with hr_def
  have hm_split : m = 1000 * Q + r := by rw [hQ_def, hr_def]; omega
  have hqQr : q = (Q : ℚ) + (r : ℚ) / 1000 := by
    have hmq : ((m : ℕ) : ℚ) = 1000 * (Q : ℚ) + (r : ℚ) := by exact_mod_cast hm_split
    rw [hq_def, hmq]
    ring
  have hQ359 : Q ≤ 359999 := by omega
  have hr999 : r ≤ 999 := by omega
  rcases Nat.eq_zero_or_pos r with hr0 | hr1
  · -- exact case: m is a whole number of seconds
    have hqQ : q = ((Q : ℕ) : ℚ) := by rw [hqQr, hr0]; norm_num
    have hts : pyDiv ((m : ℕ) : ℚ) 1000 = ((Q : ℕ) : ℚ) := by
      unfold pyDiv
      rw [← hq_def, hqQ]
      exact fl_nat_q Q rfl (by norm_num; omega)
    rw [hts]
    have hpi : pyInt ((Q : ℕ) : ℚ) = (Q : ℤ) := by
      refine pyInt_eval (by positivity) ?_
      exact_mod_cast Int.floor_natCast Q
    rw [hpi]
    have hsub : pySub ((Q : ℕ) : ℚ) (((Q : ℤ)) : ℚ) = 0 := by
      unfold pySub
      rw [show ((Q : ℕ) : ℚ) - (((Q : ℤ)) : ℚ) = 0 by push_cast; ring]
      exact fl_zero
    rw [hsub]
    have hmul : pyMul (0 : ℚ) 1000 = 0 := by
      unfold pyMul
      norm_num [fl_zero]
    rw [hmul]
    rw [pyInt_eval (n := 0) (by norm_num) (by norm_num)]
    norm_num
  · -- general case: a fractional second part is present
    have hq_pos : 0 < q := by
      rw [hq_def]
      have : (1 : ℚ) ≤ (m : ℚ) := by exact_mod_cast hpos
      positivity
    set a : ℤ := Int.log 2 q with ha_def
    have h1 : (2 : ℚ) ^ a ≤ q := by
      have := Int.zpow_log_le_self (b := 2) (R := ℚ) (by norm_num) hq_pos
      rwa [show (((2 : ℕ) : ℚ)) = (2 : ℚ) by norm_num] at this
    have h2 : q < (2 : ℚ) ^ (a + 1) := by
      have := Int.lt_zpow_succ_log_self (b := 2) (R := ℚ) (by norm_num) q
      rwa [show (((2 : ℕ) : ℚ)) = (2 : ℚ) by norm_num] at this
    have hq_ge : (1 : ℚ) / 1000 ≤ q := by
      rw [hq_def]
      have h : (1 : ℚ) ≤ (m : ℚ) := by exact_mod_cast hpos
      linarith
    have hq_le : q ≤ 359999999 / 1000 := by
      rw [hq_def]
      have h : (m : ℚ) ≤ 359999999 := by exact_mod_cast hm
      linarith
    have ha_lo : -10 ≤ a := by
      have hx : (2 : ℚ) ^ (-10 : ℤ) < 2 ^ (a + 1) := by
        have hc : (2 : ℚ) ^ (-10 : ℤ) = 1 / 1024 := by norm_num
        rw [hc]
        linarith
      rw [zpow_lt_zpow_iff_right₀ (by norm_num : (1 : ℚ) < 2)] at hx
      omega
    have ha_hi : a ≤ 18 := by
      have hx : (2 : ℚ) ^ a < 2 ^ (19 : ℤ) := by
        have hc : (2 : ℚ) ^ (19 : ℤ) = 524288 := by norm_num
        rw [hc]
        linarith
      rw [zpow_lt_zpow_iff_right₀ (by norm_num : (1 : ℚ) < 2)] at hx
      omega
    have hq_lt19 : q < 2 ^ ((18 : ℤ) + 1) := by
      have hc : (2 : ℚ) ^ ((18 : ℤ) + 1) = 524288 := by norm_num
      rw [hc]
      linarith
    have hq_low : (2 : ℚ) ^ (-119 : ℤ) < q := by
      have hc : (2 : ℚ) ^ (-119 : ℤ) < 1 / 1000 := by norm_num
      exact lt_of_lt_of_le hc hq_ge
    have c35 : (2 : ℚ) ^ ((18 : ℤ) - 53) = 1 / 34359738368 := by norm_num
    have hts_ub : pyDiv ((m : ℕ) : ℚ) 1000 ≤ q + 1 / 34359738368 := by
      have h := fl_le_of_pos hq_pos hq_low hq_lt19 (by norm_num)
      rw [c35] at h
      unfold pyDiv
      rw [← hq_def]
      exact h
    have hts_lb : q - 1 / 34359738368 ≤ pyDiv ((m : ℕ) : ℚ) 1000 := by
      have h := le_fl_of_pos hq_pos hq_low hq_lt19 (by norm_num)
      rw [c35] at h
      unfold pyDiv
      rw [← hq_def]
      exact h
    set ts := pyDiv ((m : ℕ) : ℚ) 1000 with hts_def
    have hr1Q : (1 : ℚ) ≤ (r : ℚ) := by exact_mod_cast hr1
    have hr999Q : (r : ℚ) ≤ 999 := by exact_mod_cast hr999
    have hts_gtQ : (Q : ℚ) < ts := by
      rw [hqQr] at hts_lb
      linarith
    have hts_ltQ1 : ts < (Q : ℚ) + 1 := by
      rw [hqQr] at hts_ub
      linarith
    have hts_pos : 0 ≤ ts := le_trans (by positivity) hts_gtQ.le
    have hfloor_ts : ⌊ts⌋ = (Q : ℤ) := by
      rw [Int.floor_eq_iff]
      constructor
      · push_cast
        exact hts_gtQ.le
      · push_cast
        linarith
    have hpyint_ts : pyInt ts = (Q : ℤ) := pyInt_eval hts_pos hfloor_ts
    rw [hpyint_ts]
    have hts_eval : ts = (rne (q * 2 ^ (52 - a)) : ℚ) * 2 ^ (a - 52) := by
      rw [hts_def]
      unfold pyDiv
      rw [← hq_def]
      exact fl_eval h1 h2 (by omega) (by omega)
    set R : ℤ := rne (q * 2 ^ (52 - a)) with hR_def
    have hR_pos : 0 < R := by
      by_contra hcon
      push_neg at hcon
      have hRq : (R : ℚ) ≤ 0 := by exact_mod_cast hcon
      have hz : (0 : ℚ) < 2 ^ (a - 52) := zpow_pos (by norm_num) _
      have hts_np : ts ≤ 0 := by
        rw [hts_eval]
        nlinarith
      have hQ0 : (0 : ℚ) ≤ (Q : ℚ) := by positivity
      linarith
    have hscaled_lt : q * 2 ^ (52 - a) < 2 ^ (53 : ℤ) := by
      have h := mul_lt_mul_of_pos_right h2 (zpow_pos (by norm_num : (0 : ℚ) < 2) (52 - a))
      rwa [← zpow_add₀ h2ne, show a + 1 + (52 - a) = (53 : ℤ) from by omega] at h
    have hR_le : R ≤ 2 ^ 53 := by
      have hu := rne_le_add_half (q * 2 ^ (52 - a))
      rw [← hR_def] at hu
      have hc1 : (2 : ℚ) ^ (53 : ℤ) = 9007199254740992 := by norm_num
      have hc2 : (R : ℚ) < ((2 ^ 53 + 1 : ℤ) : ℚ) := by
        push_cast
        rw [hc1] at hscaled_lt
        linarith
      have hlt : R < 2 ^ 53 + 1 := by exact_mod_cast hc2
      omega
    set K : ℤ := R - (Q : ℤ) * 2 ^ ((52 - a).toNat) with hK_def
    have hKQ : (K : ℚ) * 2 ^ (a - 52) = ts - (Q : ℚ) := by
      rw [hts_eval, hK_def]
      push_cast
      rw [sub_mul]
      congr 1
      rw [mul_assoc, ← zpow_natCast (2 : ℚ) ((52 - a).toNat), ← zpow_add₀ h2ne,
        show (((52 - a).toNat : ℤ) + (a - 52)) = 0 from by omega, zpow_zero, mul_one]
    have hK_pos : 0 < K := by
      have h2p : (0 : ℚ) < 2 ^ (a - 52) := zpow_pos (by norm_num) _
      by_contra hcon
      push_neg at hcon
      have hKq : (K : ℚ) ≤ 0 := by exact_mod_cast hcon
      nlinarith
    have hK_le : K ≤ 2 ^ 53 := by
      have hnn : 0 ≤ (Q : ℤ) * 2 ^ ((52 - a).toNat) :=
        mul_nonneg (Int.natCast_nonneg Q) (pow_nonneg (by norm_num) _)
      have hKR : K ≤ R := by
        rw [hK_def]
        linarith
      exact le_trans hKR hR_le
    have hfrac : pySub ts (((Q : ℤ)) : ℚ) = ts - (Q : ℚ) := by
      unfold pySub
      rw [show (((Q : ℤ)) : ℚ) = (Q : ℚ) from by push_cast; rfl]
      rw [← hKQ]
      rw [fl_dyadic_q K.toNat (by exact_mod_cast (Int.toNat_of_nonneg hK_pos.le).symm)
        (by omega) (by omega) (by omega) (by omega)]
    rw [hfrac]
    have hsub_lb : (r : ℚ) / 1000 - 1 / 34359738368 ≤ ts - (Q : ℚ) := by
      rw [hqQr] at hts_lb
      linarith
    have hsub_ub : ts - (Q : ℚ) ≤ (r : ℚ) / 1000 + 1 / 34359738368 := by
      rw [hqQr] at hts_ub
      linarith
    have hx_pos : 0 < (ts - (Q : ℚ)) * 1000 := by linarith
    have hx_low : (2 : ℚ) ^ (-119 : ℤ) < (ts - (Q : ℚ)) * 1000 := by
      have hc : (2 : ℚ) ^ (-119 : ℤ) < 1 / 2 := by norm_num
      have hge : (1 : ℚ) / 2 ≤ (ts - (Q : ℚ)) * 1000 := by linarith
      exact lt_of_lt_of_le hc hge
    have hx_hi : (ts - (Q : ℚ)) * 1000 < 2 ^ ((9 : ℤ) + 1) := by
      have hc : (2 : ℚ) ^ ((9 : ℤ) + 1) = 1024 := by norm_num
      rw [hc]
      linarith
    have c44 : (2 : ℚ) ^ ((9 : ℤ) - 53) = 1 / 17592186044416 := by norm_num
    have hfl_hi : fl ((ts - (Q : ℚ)) * 1000) ≤ (ts - (Q : ℚ)) * 1000 + 1 / 17592186044416 := by
      have h := fl_le_of_pos hx_pos hx_low hx_hi (by norm_num)
      rwa [c44] at h
    have hfl_lo : (ts - (Q : ℚ)) * 1000 - 1 / 17592186044416 ≤ fl ((ts - (Q : ℚ)) * 1000) := by
      have h := le_fl_of_pos hx_pos hx_low hx_hi (by norm_num)
      rwa [c44] at h
    have hfl_pos : 0 ≤ fl ((ts - (Q : ℚ)) * 1000) := by linarith
    have hfl_lt : fl ((ts - (Q : ℚ)) * 1000) < 1000 := by linarith
    have hmuleq : pyMul (ts - (Q : ℚ)) 1000 = fl ((ts - (Q : ℚ)) * 1000) := rfl
    rw [hmuleq]
    rw [pyInt_eval hfl_pos rfl]
    refine ⟨Int.floor_nonneg.mpr hfl_pos, ?_⟩
    exact Int.floor_lt.mpr (by push_cast; linarith)

lemma ts_bounds {m : ℕ} (hpos : 1 ≤ m) (hm : m ≤ 359999999) :
    0 ≤ pyDiv ((m : ℕ) : ℚ) 1000 ∧ pyDiv ((m : ℕ) : ℚ) 1000 < 360000 := by
  set q : ℚ := ((m : ℕ) : ℚ) / 1000 with hq_def
  have hq_ge : (1 : ℚ) / 1000 ≤ q := by
    rw [hq_def]
    have h : (1 : ℚ) ≤ (m : ℚ) := by exact_mod_cast hpos
    linarith
  have hq_le : q ≤ 359999999 / 1000 := by
    rw [hq_def]
    have h : (m : ℚ) ≤ 359999999 := by exact_mod_cast hm
    linarith
  have hq_pos : 0 < q := by linarith
  have hq_low : (2 : ℚ) ^ (-119 : ℤ) < q := by
    have hc : (2 : ℚ) ^ (-119 : ℤ) < 1 / 1000 := by norm_num
    exact lt_of_lt_of_le hc hq_ge
  have hq_lt19 : q < 2 ^ ((18 : ℤ) + 1) := by
    have hc : (2 : ℚ) ^ ((18 : ℤ) + 1) = 524288 := by norm_num
    rw [hc]
    linarith
  have c35 : (2 : ℚ) ^ ((18 : ℤ) - 53) = 1 / 34359738368 := by norm_num
  have hub : pyDiv ((m : ℕ) : ℚ) 1000 ≤ q + 1 / 34359738368 := by
    have h := fl_le_of_pos hq_pos hq_low hq_lt19 (by norm_num)
    rw [c35] at h
    unfold pyDiv
    rw [← hq_def]
    exact h
  have hlb : q - 1 / 34359738368 ≤ pyDiv ((m : ℕ) : ℚ) 1000 := by
    have h := le_fl_of_pos hq_pos hq_low hq_lt19 (by norm_num)
    rw [c35] at h
    unfold pyDiv
    rw [← hq_def]
    exact h
  constructor
  · linarith
  · linarith

/-- Claim C5, counterexample.  The claim says `format_time` always returns
exactly 12 characters matching the time pattern; at 100 hours
(`m = 360000000`) the hour field grows to three digits and the result has
13 characters. -/
theorem C5_counterexample_width13 :
    (format_time 360000000).length = 13 ∧
      ¬((format_time 360000000).length = 12 ∧
        fmtPattern (format_time 360000000) = true) := by
  rw [format_time_360000000]
  decide

/-- Claim C5 (amended).  For every input below 100 hours (`m ≤ 359999999`),
`format_time` returns exactly 12 characters matching
`\d{2}:\d{2}:\d{2},\d{3}`; above that the hour field grows past two
digits. -/
theorem C5_format_fixed_width (m : ℕ) (hm : m ≤ 359999999) :
    (format_time m).length = 12 ∧ fmtPattern (format_time m) = true := by
  rcases Nat.eq_zero_or_pos m with h0 | hpos
  · subst h0
    rw [format_time_0]
    exact ⟨by decide, by decide⟩
  · obtain ⟨hms0, hms1⟩ := ms_bound_main hpos hm
    obtain ⟨hts0, htslt⟩ := ts_bounds hpos hm
    obtain ⟨hh0, hh1⟩ := hours_bound hts0 htslt
    obtain ⟨hmi0, hmi1⟩ := minutes_bound hts0
    obtain ⟨hse0, hse1⟩ := seconds_bound hts0
    simp only [format_time]
    exact fmt_assembly hh0 hh1 hmi0 (by omega) hse0 (by omega) hms0 hms1

/-- Witness for `C5_format_fixed_width` at `m = 500`. -/
theorem C5_format_fixed_width_witness :
    500 ≤ 359999999 ∧
      ((format_time 500).length = 12 ∧ fmtPattern (format_time 500) = true) :=
  ⟨by norm_num, C5_format_fixed_width 500 (by norm_num)⟩

/-- Claim C2, counterexample.  The claim asserts the padded duration
`(end_ms - start_ms) + 2*silence` for every record with `end_ms > start_ms`
and every `silence ≥ 0`, but `generate_files` never checks the record
against the audio's duration: pydub slicing clamps, so a record ending past
the end of the audio yields a shorter clip.  With a 0 ms audio buffer and
the record `[0, 5)`, the padded clip is `2 * 500 = 1000` ms, not
`5 + 1000`. -/
theorem C2_counterexample_out_of_range :
    (0 : ℕ) < 5 ∧
      (clipOf ['b'] 0 500 ⟨1, 0, 5, ['x']⟩).audioLen ≠ (5 - 0) + 2 * 500 := by
  constructor
  · decide
  · decide

/-- Claim C2 (amended).  For every record with `start_ms < end_ms` whose
range lies inside the audio (`end_ms ≤` audio duration) and every silence
`s ≥ 0`, the emitted clip's duration is `(end_ms - start_ms) + 2 * s`, and
its re-based caption has `start_ms = s`, `end_ms = duration - s`, index 1
and the original text.  (Without `end_ms ≤` audio duration the code
silently truncates; see the counterexample.) -/
theorem C2_slice_padding (base : List Char) (n s : ℕ) (sub : Subtitle)
    (h1 : sub.start < sub.stop) (h2 : sub.stop ≤ n) :
    (clipOf base n s sub).audioLen = (sub.stop - sub.start) + 2 * s ∧
      (clipOf base n s sub).capStart = s ∧
      (clipOf base n s sub).capEnd = (clipOf base n s sub).audioLen - s ∧
      (clipOf base n s sub).capIdx = 1 ∧
      (clipOf base n s sub).capText = sub.text := by
  unfold clipOf add_silence pySliceLen
  refine ⟨?_, rfl, rfl, rfl, rfl⟩
  simp only
  omega

/-- Witness for `C2_slice_padding`: record `[1000, 2500)` in a 10000 ms
clip with the default 500 ms silence. -/
theorem C2_slice_padding_witness :
    (1000 : ℕ) < 2500 ∧ (2500 : ℕ) ≤ 10000 ∧
      ((clipOf ['b'] 10000 500 ⟨1, 1000, 2500, ['x']⟩).audioLen =
          (2500 - 1000) + 2 * 500 ∧
        (clipOf ['b'] 10000 500 ⟨1, 1000, 2500, ['x']⟩).capStart = 500 ∧
        (clipOf ['b'] 10000 500 ⟨1, 1000, 2500, ['x']⟩).capEnd =
          (clipOf ['b'] 10000 500 ⟨1, 1000, 2500, ['x']⟩).audioLen - 500 ∧
        (clipOf ['b'] 10000 500 ⟨1, 1000, 2500, ['x']⟩).capIdx = 1 ∧
        (clipOf ['b'] 10000 500 ⟨1, 1000, 2500, ['x']⟩).capText = ['x']) :=
  ⟨by decide, by decide,
    C2_slice_padding ['b'] 10000 500 ⟨1, 1000, 2500, ['x']⟩ (by decide) (by decide)⟩

/-- The clip caption text written by `generate_files` is the serializer's
block for the re-based record with its final (blank-line) newline missing:
appending one `'\n'` recovers the serializer layout. -/
lemma clip_srt_newline (base : List Char) (n s : ℕ) (sub : Subtitle) :
    (clipOf base n s sub).srtContent ++ ['\n'] =
      rowTemplate (natDec 1) (format_time s)
        (format_time ((clipOf base n s sub).audioLen - s)) sub.text := by
  unfold clipOf rowTemplate
  simp only
  rw [natDec_lt10 (by norm_num)]
  rw [show decDigit 1 = '1' from by decide]
  simp [List.append_assoc]

/-- Claim C6, counterexample.  The single-entry clip caption file written by
`generate_files` is not the serializer's layout for its record: the file
content ends with a single `'\n'`, the serializer's block ends with a blank
line (`"\n\n"`). -/
theorem C6_counterexample_clip_content :
    (clipOf ['b'] 10000 500 ⟨1, 1000, 2500, ['H', 'i']⟩).srtContent ≠
      rowTemplate (natDec 1) (format_time 500) (format_time 2000) ['H', 'i'] := by
  have h := clip_srt_newline ['b'] 10000 500 ⟨1, 1000, 2500, ['H', 'i']⟩
  rw [show (clipOf ['b'] 10000 500 ⟨1, 1000, 2500, ['H', 'i']⟩).audioLen - 500 = 2000
    from by decide] at h
  intro heq
  have h2 : ((clipOf ['b'] 10000 500 ⟨1, 1000, 2500, ['H', 'i']⟩).srtContent ++
      ['\n']).length =
      (clipOf ['b'] 10000 500 ⟨1, 1000, 2500, ['H', 'i']⟩).srtContent.length := by
    rw [h, ← heq]
  simp at h2

/-- Claim C6 (amended).  `save_edits` emits, for each four-cell row in
order, exactly `"{index}\n{start} --> {end}\n{text}\n\n"`; the clip caption
file written by `generate_files` contains that layout for its single
re-based record except that it ends with a single `'\n'` rather than the
blank-line terminator. -/
theorem C6_serializer_layout :
    (∀ rows : List (List Char × List Char × List Char × List Char),
      save_edits (rows.map fun r => [r.1, r.2.1, r.2.2.1, r.2.2.2]) =
        (rows.map fun r => rowTemplate r.1 r.2.1 r.2.2.1 r.2.2.2).flatten) ∧
    (∀ (base : List Char) (n s : ℕ) (sub : Subtitle),
      (clipOf base n s sub).srtContent ++ ['\n'] =
        rowTemplate (natDec 1) (format_time s)
          (format_time ((clipOf base n s sub).audioLen - s)) sub.text) := by
  constructor
  · intro rows
    induction rows with
    | nil => rfl
    | cons r rest ih =>
      simp only [List.map_cons, List.flatten_cons]
      unfold save_edits at ih ⊢
      simp only [List.flatMap_cons]
      rw [ih]
  · exact clip_srt_newline

lemma natDecAux_fuel_mono (n : ℕ) : ∀ f g : ℕ, n + 1 ≤ f → n + 1 ≤ g →
    natDecAux f n = natDecAux g n := by
  induction n using Nat.strong_induction_on with
  | _ n ih =>
    intro f g hf hg
    obtain ⟨f', rfl⟩ : ∃ f', f = f' + 1 := ⟨f - 1, by omega⟩
    obtain ⟨g', rfl⟩ : ∃ g', g = g' + 1 := ⟨g - 1, by omega⟩
    unfold natDecAux
    by_cases h10 : n < 10
    · rw [if_pos h10, if_pos h10]
    · rw [if_neg h10, if_neg h10]
      rw [ih (n / 10) (by omega) f' g' (by omega) (by omega)]

lemma natDec_step {n : ℕ} (h : 10 ≤ n) :
    natDec n = natDec (n / 10) ++ [decDigit (n % 10)] := by
  unfold natDec
  rw [show n + 1 = n + 1 from rfl]
  unfold natDecAux
  rw [if_neg (by omega)]
  rw [natDecAux_fuel_mono (n / 10) n (n / 10 + 1) (by omega) (by omega)]
  rfl

lemma natDec_len_pos (n : ℕ) : 1 ≤ (natDec n).length := by
  by_cases h : n < 10
  · rw [natDec_lt10 h]
    simp
  · rw [natDec_step (by omega)]
    simp

lemma natDec_len_ge4 {n : ℕ} (h : 1000 ≤ n) : 4 ≤ (natDec n).length := by
  rw [natDec_step (by omega), natDec_step (show 10 ≤ n / 10 by omega),
    natDec_step (show 10 ≤ n / 10 / 10 by omega)]
  have := natDec_len_pos (n / 10 / 10 / 10)
  simp only [List.length_append, List.length_cons, List.length_nil]
  omega

/-- Python's `{i:03d}` is a minimum width: four and more digits print in
full. -/
lemma intPad3_growth {i : ℕ} (h : 1000 ≤ i) : intPad 3 ((i : ℕ) : ℤ) = natDec i := by
  unfold intPad
  rw [if_neg (not_lt.mpr (Int.natCast_nonneg i))]
  unfold padZero
  rw [Int.toNat_natCast]
  rw [show 3 - (natDec i).length = 0 from by have := natDec_len_ge4 h; omega]
  simp

/-- Claim C7.  `srt2clip` first issues `os.makedirs(output_dir,
exist_ok=True)` (create with parents, no error if present) and then, for
every parsed record in order, writes `{stem}_{idx:03d}.wav` followed by
`{stem}_{idx:03d}.srt` under the output directory, where the stem is the
caption path's stem and the index is the record's original index,
zero-padded to three digits and growing beyond three digits past 999. -/
theorem C7_batch_naming (srtPath content : List Char) (audioLen : ℕ)
    (outputDir : List Char) (subs : List Subtitle)
    (hparse : read_srt_file content = .ok subs) :
    srt2clip srtPath content audioLen outputDir =
      .ok (.makedirs outputDir true ::
        subs.flatMap (fun sub =>
          [.writeWav (pyJoin outputDir (pyStem srtPath ++ '_' ::
              intPad 3 (sub.idx : ℤ) ++ ('.' :: 'w' :: 'a' :: ['v'])))
            (clipOf (pyStem srtPath) audioLen 500 sub).audioLen,
           .writeSrt (pyJoin outputDir (pyStem srtPath ++ '_' ::
              intPad 3 (sub.idx : ℤ) ++ ('.' :: 's' :: 'r' :: ['t'])))
            (clipOf (pyStem srtPath) audioLen 500 sub).srtContent])) ∧
      intPad 3 ((12 : ℕ) : ℤ) = ['0', '1', '2'] ∧
      (∀ i : ℕ, 1000 ≤ i → intPad 3 ((i : ℕ) : ℤ) = natDec i) := by
  refine ⟨?_, by decide, fun i hi => intPad3_growth hi⟩
  unfold srt2clip generate_files
  rw [hparse]
  show Except.ok (.makedirs outputDir true ::
    ((subs.map (clipOf (pyStem srtPath) audioLen 500)).flatMap (clipOps outputDir))) = _
  rw [List.flatMap_map]
  rfl

/-- Witness for `C7_batch_naming`: `lesson1.srt` with records of index 1, 2
and 12. -/
theorem C7_batch_naming_witness :
    read_srt_file ("1\n00:00:01,000 --> 00:00:02,500\nHello\n\n2\n00:00:03,000 --> 00:00:04,500\nWorld\n\n12\n00:00:05,000 --> 00:00:06,500\nAgain\n").toList =
      .ok [⟨1, 1000, 2500, "Hello".toList⟩, ⟨2, 3000, 4500, "World".toList⟩,
        ⟨12, 5000, 6500, "Again".toList⟩] ∧
    (srt2clip "lesson1.srt".toList
        ("1\n00:00:01,000 --> 00:00:02,500\nHello\n\n2\n00:00:03,000 --> 00:00:04,500\nWorld\n\n12\n00:00:05,000 --> 00:00:06,500\nAgain\n").toList
        10000 "out".toList =
      .ok (.makedirs "out".toList true ::
        ([⟨1, 1000, 2500, "Hello".toList⟩, ⟨2, 3000, 4500, "World".toList⟩,
          ⟨12, 5000, 6500, "Again".toList⟩] : List Subtitle).flatMap (fun sub =>
          [.writeWav (pyJoin "out".toList (pyStem "lesson1.srt".toList ++ '_' ::
              intPad 3 (sub.idx : ℤ) ++ ('.' :: 'w' :: 'a' :: ['v'])))
            (clipOf (pyStem "lesson1.srt".toList) 10000 500 sub).audioLen,
           .writeSrt (pyJoin "out".toList (pyStem "lesson1.srt".toList ++ '_' ::
              intPad 3 (sub.idx : ℤ) ++ ('.' :: 's' :: 'r' :: ['t'])))
            (clipOf (pyStem "lesson1.srt".toList) 10000 500 sub).srtContent])) ∧
      intPad 3 ((12 : ℕ) : ℤ) = ['0', '1', '2'] ∧
      (∀ i : ℕ, 1000 ≤ i → intPad 3 ((i : ℕ) : ℤ) = natDec i)) :=
  ⟨by decide,
    C7_batch_naming "lesson1.srt".toList _ 10000 "out".toList _ (by decide)⟩

/-! ### Behaviour of `pySplit` on block-structured text -/

lemma startsWithSeq_length {p s : List Char} (h : startsWithSeq p s = true) :
    p.length ≤ s.length := by
  induction p generalizing s with
  | nil => simp
  | cons c cs ih =>
    cases s with
    | nil => simp [startsWithSeq] at h
    | cons d ds =>
      simp only [startsWithSeq, Bool.and_eq_true] at h
      have := ih h.2
      simp only [List.length_cons]
      omega

lemma findOcc_some_bound {sep s : List Char} {i : ℕ} (h : findOcc sep s = some i) :
    i + sep.length ≤ s.length := by
  induction s generalizing i with
  | nil =>
    unfold findOcc at h
    by_cases hsep : sep.isEmpty
    · rw [if_pos hsep] at h
      cases h
      simp at hsep
      simp [hsep]
    · rw [if_neg hsep] at h
      cases h
  | cons c rest ih =>
    unfold findOcc at h
    by_cases hsw : startsWithSeq sep (c :: rest) = true
    · rw [if_pos hsw] at h
      cases h
      simpa using startsWithSeq_length hsw
    · rw [if_neg hsw] at h
      rcases Option.map_eq_some'.mp h with ⟨j, hj, rfl⟩
      have := ih hj
      simp only [List.length_cons]
      omega

lemma pySplitF_fuel {sep : List Char} (hsep : sep ≠ []) :
    ∀ (f : ℕ) (s : List Char), s.length ≤ f → ∀ g, s.length ≤ g →
      pySplitF sep f s = pySplitF sep g s := by
  intro f
  induction f with
  | zero =>
    intro s hs g hg
    have : s = [] := List.length_eq_zero.mp (by omega)
    subst this
    cases g with
    | zero => rfl
    | succ g' =>
      show [([] : List Char)] = pySplitF sep (g' + 1) []
      unfold pySplitF findOcc
      rw [if_neg (by simpa using hsep)]
  | succ f' ih =>
    intro s hs g hg
    cases g with
    | zero =>
      have : s = [] := List.length_eq_zero.mp (by omega)
      subst this
      show pySplitF sep (f' + 1) [] = [([] : List Char)]
      unfold pySplitF findOcc
      rw [if_neg (by simpa using hsep)]
    | succ g' =>
      show pySplitF sep (f' + 1) s = pySplitF sep (g' + 1) s
      unfold pySplitF
      cases hf : findOcc sep s with
      | none => rfl
      | some i =>
        have hb := findOcc_some_bound hf
        have hlen : (s.drop (i + sep.length)).length ≤ f' := by
          rw [List.length_drop]
          have : 1 ≤ sep.length := by
            cases sep with
            | nil => exact absurd rfl hsep
            | cons _ _ => simp
          omega
        have hlen' : (s.drop (i + sep.length)).length ≤ g' := by
          rw [List.length_drop]
          have : 1 ≤ sep.length := by
            cases sep with
            | nil => exact absurd rfl hsep
            | cons _ _ => simp
          omega
        dsimp only
        rw [ih _ hlen _ hlen']

lemma pySplit_no_sep {sep b : List Char} (hsep : sep ≠ []) (h : findOcc sep b = none) :
    pySplit sep b = [b] := by
  unfold pySplit
  cases hl : b.length with
  | zero =>
    have : b = [] := List.length_eq_zero.mp hl
    subst this
    rfl
  | succ k =>
    show pySplitF sep (k + 1) b = [b]
    unfold pySplitF
    rw [h]

lemma findOcc_nl2_append {a : List Char} (r : List Char)
    (hno : findOcc ('\n' :: ['\n']) a = none) (hlast : a.getLast? ≠ some '\n') :
    findOcc ('\n' :: ['\n']) (a ++ '\n' :: '\n' :: r) = some a.length := by
  induction a with
  | nil =>
    show findOcc ('\n' :: ['\n']) ('\n' :: '\n' :: r) = some 0
    unfold findOcc
    rw [if_pos (by simp [startsWithSeq])]
  | cons c a' ih =>
    unfold findOcc at hno
    by_cases hsw : startsWithSeq ('\n' :: ['\n']) (c :: a') = true
    · rw [if_pos hsw] at hno
      cases hno
    · rw [if_neg hsw] at hno
      have hno' : findOcc ('\n' :: ['\n']) a' = none := by
        rcases ho : findOcc ('\n' :: ['\n']) a' with _ | j
        · rfl
        · rw [ho] at hno
          simp at hno
      show findOcc ('\n' :: ['\n']) (c :: (a' ++ '\n' :: '\n' :: r)) = some (a'.length + 1)
      unfold findOcc
      have hsw2 : startsWithSeq ('\n' :: ['\n']) (c :: (a' ++ '\n' :: '\n' :: r)) = false := by
        cases a' with
        | nil =>
          have hc : c ≠ '\n' := by
            intro hc
            apply hlast
            subst hc
            rfl
          have hcb : ('\n' == c) = false := beq_eq_false_iff_ne.mpr fun h => hc h.symm
          simp [startsWithSeq, hcb]
        | cons d a'' =>
          by_cases hc : c = '\n'
          · subst hc
            have hd : d ≠ '\n' := by
              intro hd
              subst hd
              exact hsw (by simp [startsWithSeq])
            have hdb : ('\n' == d) = false := beq_eq_false_iff_ne.mpr fun h => hd h.symm
            simp [startsWithSeq, hdb]
          · have hcb : ('\n' == c) = false := beq_eq_false_iff_ne.mpr fun h => hc h.symm
            simp [startsWithSeq, hcb]
      rw [hsw2]
      simp only [Bool.false_eq_true, if_false]
      have hlast' : a'.getLast? ≠ some '\n' := by
        cases a' with
        | nil => simp
        | cons d a'' =>
          rw [List.getLast?_cons_cons] at hlast
          exact hlast
      rw [ih hno' hlast']
      rfl

lemma pySplit_nl2_append {a : List Char} (r : List Char)
    (hno : findOcc ('\n' :: ['\n']) a = none) (hlast : a.getLast? ≠ some '\n') :
    pySplit ('\n' :: ['\n']) (a ++ '\n' :: '\n' :: r) = a :: pySplit ('\n' :: ['\n']) r := by
  have hsep : ('\n' :: ['\n'] : List Char) ≠ [] := by simp
  have htake : (a ++ '\n' :: '\n' :: r).take a.length = a := by
    rw [List.take_left]
  have hdrop : (a ++ '\n' :: '\n' :: r).drop (a.length + 2) = r := by
    rw [show a ++ '\n' :: '\n' :: r = (a ++ ['\n', '\n']) ++ r by simp]
    rw [show a.length + 2 = (a ++ ['\n', '\n']).length by simp]
    rw [List.drop_left]
  obtain ⟨k, hk⟩ : ∃ k, (a ++ '\n' :: '\n' :: r).length = k + 1 :=
    ⟨a.length + 1 + r.length, by simp; omega⟩
  unfold pySplit
  rw [hk]
  conv_lhs => simp only [pySplitF]
  rw [findOcc_nl2_append r hno hlast]
  dsimp only
  rw [htake]
  rw [show a.length + ('\n' :: ['\n']).length = a.length + 2 from rfl, hdrop]
  rw [pySplitF_fuel hsep k r (by simp at hk; omega) r.length le_rfl]

lemma isEmpty_false_of_ne_nil {l : List Char} (h : l ≠ []) : l.isEmpty = false := by
  cases l with
  | nil => exact absurd rfl h
  | cons _ _ => rfl

/-- A document made of three blocks separated by blank lines parses block
by block: the split, strip and non-emptiness filter return exactly the
three blocks. -/
lemma read_srt_three {b1 b2 b3 : List Char}
    (h1n : findOcc ('\n' :: ['\n']) b1 = none) (h1l : b1.getLast? ≠ some '\n')
    (h1s : pyStrip b1 = b1) (h1e : b1 ≠ [])
    (h2n : findOcc ('\n' :: ['\n']) b2 = none) (h2l : b2.getLast? ≠ some '\n')
    (h2s : pyStrip b2 = b2) (h2e : b2 ≠ [])
    (h3n : findOcc ('\n' :: ['\n']) b3 = none)
    (h3s : pyStrip b3 = b3) (h3e : b3 ≠ []) :
    read_srt_file (b1 ++ '\n' :: '\n' :: (b2 ++ '\n' :: '\n' :: b3)) =
      readBlocks [b1, b2, b3] := by
  unfold read_srt_file
  rw [pySplit_nl2_append _ h1n h1l, pySplit_nl2_append _ h2n h2l,
    pySplit_no_sep (by simp) h3n]
  simp only [List.map_cons, List.map_nil, h1s, h2s, h3s, List.filter,
    isEmpty_false_of_ne_nil h1e, isEmpty_false_of_ne_nil h2e,
    isEmpty_false_of_ne_nil h3e, Bool.not_false]

lemma parseBlock_malformed {b : List Char} (h : malformedBlock b = true) :
    parseBlock b = .ok none := by
  unfold parseBlock
  rcases hsp : pySplit ['\n'] b with _ | ⟨l0, _ | ⟨l1, _ | ⟨l2, rest⟩⟩⟩
  · rfl
  · rfl
  · rfl
  · unfold malformedBlock at h
    rw [hsp] at h
    dsimp only at h ⊢
    rw [if_pos h]

/-- Claim C3.  A caption document made of three blank-line-separated blocks,
one malformed (fewer than three lines, or no leading integer run on its
first line) and two well-formed, parses to exactly the two records of the
well-formed blocks, in document order, with no error — whichever position
the malformed block occupies.  The side conditions say the three parts are
genuine blocks: stripped, nonempty, and containing no blank-line separator
(`findOcc "\n\n" = none`) so that the document splits into exactly these
three. -/
theorem C3_malformed_block_skipped (b1 b2 b3 : List Char)
    (h1n : findOcc ('\n' :: ['\n']) b1 = none) (h1l : b1.getLast? ≠ some '\n')
    (h1s : pyStrip b1 = b1) (h1e : b1 ≠ [])
    (h2n : findOcc ('\n' :: ['\n']) b2 = none) (h2l : b2.getLast? ≠ some '\n')
    (h2s : pyStrip b2 = b2) (h2e : b2 ≠ [])
    (h3n : findOcc ('\n' :: ['\n']) b3 = none)
    (h3s : pyStrip b3 = b3) (h3e : b3 ≠ []) :
    (malformedBlock b1 = true → ∀ r2 r3 : Subtitle,
      parseBlock b2 = .ok (some r2) → parseBlock b3 = .ok (some r3) →
      read_srt_file (b1 ++ '\n' :: '\n' :: (b2 ++ '\n' :: '\n' :: b3)) = .ok [r2, r3]) ∧
    (malformedBlock b2 = true → ∀ r1 r3 : Subtitle,
      parseBlock b1 = .ok (some r1) → parseBlock b3 = .ok (some r3) →
      read_srt_file (b1 ++ '\n' :: '\n' :: (b2 ++ '\n' :: '\n' :: b3)) = .ok [r1, r3]) ∧
    (malformedBlock b3 = true → ∀ r1 r2 : Subtitle,
      parseBlock b1 = .ok (some r1) → parseBlock b2 = .ok (some r2) →
      read_srt_file (b1 ++ '\n' :: '\n' :: (b2 ++ '\n' :: '\n' :: b3)) = .ok [r1, r2]) := by
  refine ⟨?_, ?_, ?_⟩
  · intro hm r2 r3 hp2 hp3
    rw [read_srt_three h1n h1l h1s h1e h2n h2l h2s h2e h3n h3s h3e]
    simp only [readBlocks]
    rw [parseBlock_malformed hm, hp2, hp3]
    rfl
  · intro hm r1 r3 hp1 hp3
    rw [read_srt_three h1n h1l h1s h1e h2n h2l h2s h2e h3n h3s h3e]
    simp only [readBlocks]
    rw [parseBlock_malformed hm, hp1, hp3]
    rfl
  · intro hm r1 r2 hp1 hp2
    rw [read_srt_three h1n h1l h1s h1e h2n h2l h2s h2e h3n h3s h3e]
    simp only [readBlocks]
    rw [parseBlock_malformed hm, hp1, hp2]
    rfl

/-- Witness for `C3_malformed_block_skipped`: a one-line malformed block
followed by two well-formed blocks. -/
theorem C3_malformed_block_skipped_witness :
    malformedBlock "x".toList = true ∧
      parseBlock "1\n00:00:01,000 --> 00:00:02,000\nHi".toList =
        .ok (some ⟨1, 1000, 2000, "Hi".toList⟩) ∧
      parseBlock "2\n00:00:03,000 --> 00:00:04,000\nYo".toList =
        .ok (some ⟨2, 3000, 4000, "Yo".toList⟩) ∧
      read_srt_file ("x".toList ++ '\n' :: '\n' ::
          ("1\n00:00:01,000 --> 00:00:02,000\nHi".toList ++ '\n' :: '\n' ::
            "2\n00:00:03,000 --> 00:00:04,000\nYo".toList)) =
        .ok [⟨1, 1000, 2000, "Hi".toList⟩, ⟨2, 3000, 4000, "Yo".toList⟩] :=
  ⟨by decide, by decide, by decide,
    (C3_malformed_block_skipped "x".toList
        "1\n00:00:01,000 --> 00:00:02,000\nHi".toList
        "2\n00:00:03,000 --> 00:00:04,000\nYo".toList
        (by decide) (by decide) (by decide) (by decide)
        (by decide) (by decide) (by decide) (by decide)
        (by decide) (by decide) (by decide)).1
      (by decide) _ _ (by decide) (by decide)⟩

lemma parse_srt_time_no_pattern {s : List Char} (h : timePatternAt s = false) :
    parse_srt_time s = .error .valueError := by
  unfold timePatternAt at h
  unfold parse_srt_time
  rcases s with _ | ⟨a1, _ | ⟨a2, _ | ⟨a3, _ | ⟨a4, _ | ⟨a5, _ | ⟨a6, _ | ⟨a7,
    _ | ⟨a8, _ | ⟨a9, _ | ⟨a10, _ | ⟨a11, _ | ⟨a12, rest⟩⟩⟩⟩⟩⟩⟩⟩⟩⟩⟩⟩
  · rfl
  · rfl
  · rfl
  · rfl
  · rfl
  · rfl
  · rfl
  · rfl
  · rfl
  · rfl
  · rfl
  · rfl
  · dsimp only at h
    simp only [h, Bool.false_eq_true, if_false]

/-- A document of two blank-line-separated blocks parses block by block. -/
lemma read_srt_two {b1 b2 : List Char}
    (h1n : findOcc ('\n' :: ['\n']) b1 = none) (h1l : b1.getLast? ≠ some '\n')
    (h1s : pyStrip b1 = b1) (h1e : b1 ≠ [])
    (h2n : findOcc ('\n' :: ['\n']) b2 = none)
    (h2s : pyStrip b2 = b2) (h2e : b2 ≠ []) :
    read_srt_file (b1 ++ '\n' :: '\n' :: b2) = readBlocks [b1, b2] := by
  unfold read_srt_file
  rw [pySplit_nl2_append _ h1n h1l, pySplit_no_sep (by simp) h2n]
  simp only [List.map_cons, List.map_nil, h1s, h2s, List.filter,
    isEmpty_false_of_ne_nil h1e, isEmpty_false_of_ne_nil h2e, Bool.not_false]

/-- Claim C4.  `parse_srt_time` succeeds exactly on strings starting with
the pattern `\d\d:\d\d:\d\d,\d\d\d` (trailing characters ignored, hours
unbounded), returning `((H*3600 + M*60 + S) * 1000) + mmm`; on any other
string it raises `ValueError`; and such an error from a block's time code
aborts the whole document parse. -/
theorem C4_parse_time_pattern :
    (∀ (d1 d2 d3 d4 d5 d6 d7 d8 d9 : Char) (rest : List Char),
      d1.isDigit = true → d2.isDigit = true → d3.isDigit = true →
      d4.isDigit = true → d5.isDigit = true → d6.isDigit = true →
      d7.isDigit = true → d8.isDigit = true → d9.isDigit = true →
      parse_srt_time (d1 :: d2 :: ':' :: d3 :: d4 :: ':' :: d5 :: d6 :: ',' ::
          d7 :: d8 :: d9 :: rest) =
        .ok (((10 * digitVal d1 + digitVal d2) * 3600 +
            (10 * digitVal d3 + digitVal d4) * 60 +
            (10 * digitVal d5 + digitVal d6)) * 1000 +
          (100 * digitVal d7 + 10 * digitVal d8 + digitVal d9))) ∧
    (∀ s : List Char, timePatternAt s = false →
      parse_srt_time s = .error .valueError) ∧
    (∀ (b1 b2 : List Char) (w : Option Subtitle)
      (l0 l1 l2 : List Char) (rest : List (List Char)) (t1 t2 : List Char),
      findOcc ('\n' :: ['\n']) b1 = none → b1.getLast? ≠ some '\n' →
      pyStrip b1 = b1 → b1 ≠ [] →
      findOcc ('\n' :: ['\n']) b2 = none → pyStrip b2 = b2 → b2 ≠ [] →
      parseBlock b1 = .ok w →
      pySplit ['\n'] b2 = l0 :: l1 :: l2 :: rest →
      (leadingDigits l0).isEmpty = false →
      pySplit (' ' :: '-' :: '-' :: '>' :: [' ']) l1 = [t1, t2] →
      timePatternAt t1 = false →
      read_srt_file (b1 ++ '\n' :: '\n' :: b2) = .error .valueError) := by
  refine ⟨?_, fun s h => parse_srt_time_no_pattern h, ?_⟩
  · intro d1 d2 d3 d4 d5 d6 d7 d8 d9 rest hd1 hd2 hd3 hd4 hd5 hd6 hd7 hd8 hd9
    unfold parse_srt_time
    dsimp only
    rw [if_pos (by simp [hd1, hd2, hd3, hd4, hd5, hd6, hd7, hd8, hd9])]
    exact congrArg Except.ok (by ring)
  · intro b1 b2 w l0 l1 l2 rest t1 t2 h1n h1l h1s h1e h2n h2s h2e hp1 hsp hdig hsplit hpat
    rw [read_srt_two h1n h1l h1s h1e h2n h2s h2e]
    have hpb2 : parseBlock b2 = .error .valueError := by
      unfold parseBlock
      rw [hsp]
      dsimp only
      rw [if_neg (by simp [hdig])]
      rw [hsplit]
      dsimp only
      rw [parse_srt_time_no_pattern hpat]
      rfl
    simp only [readBlocks]
    rw [hp1, hpb2]
    rfl

/-- Witness for `C4_parse_time_pattern`: hours above 23 parse fine with
trailing text ignored, a non-matching string raises, and a bad time code in
an otherwise well-formed block aborts the document parse. -/
theorem C4_parse_time_pattern_witness :
    ('9'.isDigit = true ∧ '2'.isDigit = true) ∧
      parse_srt_time ('9' :: '9' :: ':' :: '0' :: '2' :: ':' :: '0' :: '3' :: ',' ::
          '4' :: '5' :: '6' :: "xyz".toList) =
        .ok (((10 * digitVal '9' + digitVal '9') * 3600 +
            (10 * digitVal '0' + digitVal '2') * 60 +
            (10 * digitVal '0' + digitVal '3')) * 1000 +
          (100 * digitVal '4' + 10 * digitVal '5' + digitVal '6')) ∧
      (timePatternAt "bad".toList = false ∧
        parse_srt_time "bad".toList = .error .valueError) ∧
      read_srt_file ("1\n00:00:01,000 --> 00:00:02,000\nHi".toList ++ '\n' :: '\n' ::
          "2\nxx --> yy\nZz".toList) = .error .valueError :=
  ⟨⟨by decide, by decide⟩,
    C4_parse_time_pattern.1 '9' '9' '0' '2' '0' '3' '4' '5' '6' "xyz".toList
      (by decide) (by decide) (by decide) (by decide) (by decide) (by decide)
      (by decide) (by decide) (by decide),
    ⟨by decide, C4_parse_time_pattern.2.1 "bad".toList (by decide)⟩,
    C4_parse_time_pattern.2.2 "1\n00:00:01,000 --> 00:00:02,000\nHi".toList
      "2\nxx --> yy\nZz".toList (some ⟨1, 1000, 2000, "Hi".toList⟩)
      "2".toList "xx --> yy".toList "Zz".toList [] "xx".toList "yy".toList
      (by decide) (by decide) (by decide) (by decide) (by decide) (by decide)
      (by decide) (by decide) (by decide) (by decide) (by decide) (by decide)⟩

/-- Claim C9.  The webui table parser reads lines in fixed strides of four
and stops as soon as fewer than four lines remain: any leftover of at most
three lines (an unterminated final block) is dropped, each processed stride
contributes the row `[idx, start, end, text]` from its first three lines
(the fourth is never inspected), and a block that is not exactly three
content lines plus a blank desynchronizes the stride: in the concrete
document `"1\na --> b\nx\n2\nc --> d\nz\n"` (first block lacks its blank
line) the second caption is silently lost. -/
theorem C9_stride4_grouping :
    (∀ ls : List (List Char), ls.length ≤ 3 → parseRows ls = .ok []) ∧
    (∀ (idx tline text blank : List Char) (rest : List (List Char))
      (t1 t2 : List Char) (more : List (List Char))
      (rows : List (List (List Char))),
      pySplit (' ' :: '-' :: '-' :: '>' :: [' ']) tline = t1 :: t2 :: more →
      parseRows rest = .ok rows →
      parseRows (idx :: tline :: text :: blank :: rest) =
        .ok ([idx, t1, t2, text] :: rows)) ∧
    parse_srt "1\na --> b\nx\n2\nc --> d\nz\n".toList =
      .ok [["1".toList, "a".toList, "b".toList, "x".toList]] := by
  refine ⟨?_, ?_, by decide⟩
  · intro ls h
    rcases ls with _ | ⟨a, ls⟩
    · rfl
    rcases ls with _ | ⟨b, ls⟩
    · rfl
    rcases ls with _ | ⟨c, ls⟩
    · rfl
    rcases ls with _ | ⟨d, ls⟩
    · rfl
    exfalso
    simp only [List.length_cons] at h
    omega
  · intro idx tline text blank rest t1 t2 more rows hsplit hrest
    unfold parseRows
    rw [hsplit]
    dsimp only
    rw [hrest]
    rfl

/-- Witness for `C9_stride4_grouping`: a three-line leftover is dropped, and
one well-formed stride prepends its row. -/
theorem C9_stride4_grouping_witness :
    (["9".toList, "t".toList, "u".toList] : List (List Char)).length ≤ 3 ∧
      parseRows ["9".toList, "t".toList, "u".toList] = .ok [] ∧
      pySplit (' ' :: '-' :: '-' :: '>' :: [' ']) "a --> b".toList =
        ["a".toList, "b".toList] ∧
      parseRows ["1".toList, "a --> b".toList, "x".toList, "".toList,
          "9".toList, "t".toList, "u".toList] =
        .ok [["1".toList, "a".toList, "b".toList, "x".toList]] :=
  ⟨by decide,
    C9_stride4_grouping.1 ["9".toList, "t".toList, "u".toList] (by decide),
    by decide,
    C9_stride4_grouping.2.1 "1".toList "a --> b".toList "x".toList "".toList
      ["9".toList, "t".toList, "u".toList] "a".toList "b".toList [] []
      (by decide)
      (C9_stride4_grouping.1 ["9".toList, "t".toList, "u".toList] (by decide))⟩

/-! ### Behaviour of `pyReplace` -/

lemma startsWithSeq_self_append (p t : List Char) : startsWithSeq p (p ++ t) = true := by
  induction p with
  | nil => rfl
  | cons c cs ih => simp [startsWithSeq, ih]

lemma startsWithSeq_decompose {p s : List Char} (h : startsWithSeq p s = true) :
    s = p ++ s.drop p.length := by
  induction p generalizing s with
  | nil => simp
  | cons c cs ih =>
    cases s with
    | nil => simp [startsWithSeq] at h
    | cons d ds =>
      simp only [startsWithSeq, Bool.and_eq_true, beq_iff_eq] at h
      obtain ⟨rfl, h2⟩ := h
      simpa using ih h2

lemma findOcc_append_isSome {sep : List Char} (hsep : sep ≠ []) (x y : List Char) :
    (findOcc sep (x ++ sep ++ y)).isSome = true := by
  induction x with
  | nil =>
    obtain ⟨c, cs, rfl⟩ : ∃ c cs, sep = c :: cs := by
      cases sep with
      | nil => exact absurd rfl hsep
      | cons c cs => exact ⟨c, cs, rfl⟩
    show (findOcc (c :: cs) (c :: (cs ++ y))).isSome = true
    unfold findOcc
    rw [if_pos (show startsWithSeq (c :: cs) (c :: (cs ++ y)) = true from
      startsWithSeq_self_append (c :: cs) y)]
    rfl
  | cons c x' ih =>
    show (findOcc sep (c :: (x' ++ sep ++ y))).isSome = true
    unfold findOcc
    by_cases hsw : startsWithSeq sep (c :: (x' ++ sep ++ y)) = true
    · rw [if_pos hsw]
      rfl
    · rw [if_neg hsw]
      rcases ho : findOcc sep (x' ++ sep ++ y) with _ | j
      · rw [ho] at ih
        simp at ih
      · rfl

lemma findOcc_decompose {sep s : List Char} {i : ℕ} (h : findOcc sep s = some i) :
    s = s.take i ++ sep ++ s.drop (i + sep.length) := by
  induction s generalizing i with
  | nil =>
    unfold findOcc at h
    by_cases hsep : sep.isEmpty
    · rw [if_pos hsep] at h
      cases h
      simp at hsep
      simp [hsep]
    · rw [if_neg hsep] at h
      cases h
  | cons c rest ih =>
    unfold findOcc at h
    by_cases hsw : startsWithSeq sep (c :: rest) = true
    · rw [if_pos hsw] at h
      cases h
      simpa using startsWithSeq_decompose hsw
    · rw [if_neg hsw] at h
      rcases Option.map_eq_some'.mp h with ⟨j, hj, rfl⟩
      have := ih hj
      calc c :: rest = c :: (rest.take j ++ sep ++ rest.drop (j + sep.length)) := by
            rw [← this]
      _ = (c :: rest).take (j + 1) ++ sep ++ (c :: rest).drop (j + 1 + sep.length) := by
            rw [show j + 1 + sep.length = (j + sep.length) + 1 from by omega]
            simp only [List.take_succ_cons, List.drop_succ_cons, List.cons_append]

lemma countOcc_fuel {sep : List Char} (hsep : sep ≠ []) :
    ∀ (f : ℕ) (s : List Char), s.length ≤ f → ∀ g, s.length ≤ g →
      countOcc sep f s = countOcc sep g s := by
  intro f
  induction f with
  | zero =>
    intro s hs g hg
    have : s = [] := List.length_eq_zero.mp (by omega)
    subst this
    cases g with
    | zero => rfl
    | succ g' =>
      show (0 : ℕ) = countOcc sep (g' + 1) []
      unfold countOcc findOcc
      rw [if_neg (by simpa using hsep)]
  | succ f' ih =>
    intro s hs g hg
    cases g with
    | zero =>
      have : s = [] := List.length_eq_zero.mp (by omega)
      subst this
      show countOcc sep (f' + 1) [] = 0
      unfold countOcc findOcc
      rw [if_neg (by simpa using hsep)]
    | succ g' =>
      show countOcc sep (f' + 1) s = countOcc sep (g' + 1) s
      unfold countOcc
      cases hf : findOcc sep s with
      | none => rfl
      | some i =>
        have hb := findOcc_some_bound hf
        have h1 : 1 ≤ sep.length := by
          cases sep with
          | nil => exact absurd rfl hsep
          | cons _ _ => simp
        dsimp only
        rw [ih _ (by rw [List.length_drop]; omega) g' (by rw [List.length_drop]; omega)]

lemma pyReplaceF_no_occ {old new s : List Char} (h : findOcc old s = none) :
    ∀ g, pyReplaceF old new g s = s := by
  intro g
  cases g with
  | zero => rfl
  | succ g' =>
    show pyReplaceF old new (g' + 1) s = s
    unfold pyReplaceF
    rw [h]

lemma findOcc_none_of_count_zero {sep s : List Char} (hsep : sep ≠ [])
    (h : pyCount s sep = 0) : findOcc sep s = none := by
  unfold pyCount at h
  cases hl : s.length with
  | zero =>
    have : s = [] := List.length_eq_zero.mp hl
    subst this
    unfold findOcc
    rw [if_neg (by simpa using hsep)]
  | succ k =>
    rw [hl] at h
    show findOcc sep s = none
    rcases ho : findOcc sep s with _ | i
    · rfl
    · exfalso
      unfold countOcc at h
      rw [ho] at h
      simp at h

/-- Claim C10.  `save_clip` derives the audio path with
`text_clip.replace(".srt", ".wav")`, replacing every occurrence.  When
`".srt"` occurs exactly once — as the extension — the result is the sibling
`.wav` path; a path with `".srt"` also in a directory component is rewritten
everywhere, diverging from the actual temp audio path (which differs only in
the final extension). -/
theorem C10_replace_all_occurrences :
    (∀ stem : List Char,
      pyCount (stem ++ '.' :: 's' :: 'r' :: ['t']) ('.' :: 's' :: 'r' :: ['t']) = 1 →
      pyReplace (stem ++ '.' :: 's' :: 'r' :: ['t']) ('.' :: 's' :: 'r' :: ['t'])
        ('.' :: 'w' :: 'a' :: ['v']) = stem ++ '.' :: 'w' :: 'a' :: ['v']) ∧
    (pyCount "x.srt/y.srt".toList ('.' :: 's' :: 'r' :: ['t']) = 2 ∧
      pyReplace "x.srt/y.srt".toList ('.' :: 's' :: 'r' :: ['t'])
        ('.' :: 'w' :: 'a' :: ['v']) = "x.wav/y.wav".toList ∧
      "x.wav/y.wav".toList ≠ "x.srt/y.wav".toList) := by
  refine ⟨?_, by decide, by decide, by decide⟩
  intro stem hcount
  have hsep : ('.' :: 's' :: 'r' :: ['t'] : List Char) ≠ [] := by simp
  have h4 : ('.' :: 's' :: 'r' :: ['t'] : List Char).length = 4 := rfl
  have hplen : (stem ++ '.' :: 's' :: 'r' :: ['t']).length = stem.length + 4 := by
    simp
  have hsome := findOcc_append_isSome hsep stem []
  rw [List.append_nil] at hsome
  obtain ⟨i, hi⟩ := Option.isSome_iff_exists.mp hsome
  have hb := findOcc_some_bound hi
  rw [h4, hplen] at hb
  set p := stem ++ '.' :: 's' :: 'r' :: ['t'] with hp_def
  set rest := p.drop (i + 4) with hrest_def
  have hdecomp := findOcc_decompose hi
  rw [h4] at hdecomp
  have hrest_zero : pyCount rest ('.' :: 's' :: 'r' :: ['t']) = 0 := by
    have hcount' := hcount
    unfold pyCount at hcount'
    rw [hplen] at hcount'
    rw [show stem.length + 4 = (stem.length + 3) + 1 from by omega] at hcount'
    unfold countOcc at hcount'
    rw [hi] at hcount'
    dsimp only at hcount'
    rw [h4] at hcount'
    have hrlen : rest.length ≤ stem.length + 3 := by
      rw [hrest_def, List.length_drop, hplen]
      omega
    rw [← hrest_def] at hcount'
    unfold pyCount
    rw [countOcc_fuel hsep rest.length rest le_rfl (stem.length + 3) hrlen]
    omega
  have hnone : findOcc ('.' :: 's' :: 'r' :: ['t']) rest = none :=
    findOcc_none_of_count_zero hsep hrest_zero
  have hresult : pyReplace p ('.' :: 's' :: 'r' :: ['t']) ('.' :: 'w' :: 'a' :: ['v']) =
      p.take i ++ '.' :: 'w' :: 'a' :: ['v'] ++ rest := by
    unfold pyReplace
    rw [hplen, show stem.length + 4 = (stem.length + 3) + 1 from by omega]
    unfold pyReplaceF
    rw [hi]
    dsimp only
    rw [h4, ← hrest_def, pyReplaceF_no_occ hnone]
  by_cases hlt : i < stem.length
  · exfalso
    by_cases hle : i + 4 ≤ stem.length
    · have hre : rest = stem.drop (i + 4) ++ '.' :: 's' :: 'r' :: ['t'] := by
        rw [hrest_def, hp_def, List.drop_append_of_le_length hle]
      have hsome2 := findOcc_append_isSome hsep (stem.drop (i + 4)) []
      rw [List.append_nil, ← hre, hnone] at hsome2
      simp at hsome2
    · have hulen : (stem.drop i).length = stem.length - i := by
        rw [List.length_drop]
      have heq : stem.drop i ++ '.' :: 's' :: 'r' :: ['t'] =
          '.' :: 's' :: 'r' :: 't' :: rest := by
        have e1 : p.drop i = stem.drop i ++ '.' :: 's' :: 'r' :: ['t'] := by
          rw [hp_def, List.drop_append_of_le_length (le_of_lt hlt)]
        have htl : (p.take i).length = i := List.length_take_of_le (by omega)
        have e2 : p.drop i = '.' :: 's' :: 'r' :: 't' :: rest := by
          conv_lhs => rw [hdecomp]
          rw [show p.take i ++ '.' :: 's' :: 'r' :: ['t'] ++ rest =
            p.take i ++ ('.' :: 's' :: 'r' :: 't' :: rest) by simp]
          rw [List.drop_left' htl]
        rw [← e1, e2]
      rcases hu : stem.drop i with _ | ⟨c1, _ | ⟨c2, _ | ⟨c3, _ | ⟨c4, u'⟩⟩⟩⟩ <;>
        rw [hu] at heq hulen
      · simp only [List.length_nil] at hulen
        omega
      · simp at heq
      · simp at heq
      · simp at heq
      · simp only [List.length_cons] at hulen
        omega
  · have hieq : i = stem.length := by omega
    have htake : p.take i = stem := by
      rw [hieq, hp_def, List.take_left]
    have hre : rest = [] := by
      rw [hrest_def, hieq]
      refine List.drop_eq_nil_of_le ?_
      rw [hplen]
    rw [hresult, htake, hre, List.append_nil]

/-- Witness for `C10_replace_all_occurrences` with the path `/tmp/a.srt`. -/
theorem C10_replace_all_occurrences_witness :
    pyCount ("/tmp/a".toList ++ '.' :: 's' :: 'r' :: ['t'])
        ('.' :: 's' :: 'r' :: ['t']) = 1 ∧
      pyReplace ("/tmp/a".toList ++ '.' :: 's' :: 'r' :: ['t'])
        ('.' :: 's' :: 'r' :: ['t']) ('.' :: 'w' :: 'a' :: ['v']) =
        "/tmp/a".toList ++ '.' :: 'w' :: 'a' :: ['v'] :=
  ⟨by decide, C10_replace_all_occurrences.1 "/tmp/a".toList (by decide)⟩

/-- Claim C8.  `save_clip` with an empty or non-directory destination
performs no filesystem mutation and reports a single warning; with a valid
destination it moves the derived audio file and then the caption file into
it (reporting one info notice per file); an error raised by either move is
caught and reported as a warning — never propagated — leaving the
filesystem as the completed moves left it. -/
theorem C8_destination_validation :
    (∀ (fs : Fs) (tc sp : List Char), sp = [] ∨ fsIsDir fs sp = false →
      save_clip fs tc sp = (fs, [.warning ('b' :: 'a' :: ['d'])])) ∧
    (∀ (fs : Fs) (tc sp : List Char) (e : PyErr),
      fsIsDir fs sp = true → (pyStrip sp).isEmpty = false →
      fsMove fs (pyReplace tc ('.' :: 's' :: 'r' :: ['t'])
        ('.' :: 'w' :: 'a' :: ['v'])) sp = .error e →
      save_clip fs tc sp = (fs, [.warning ('e' :: 'r' :: ['r'])])) ∧
    (∀ (fs fs1 : Fs) (tc sp : List Char) (e : PyErr),
      fsIsDir fs sp = true → (pyStrip sp).isEmpty = false →
      fsMove fs (pyReplace tc ('.' :: 's' :: 'r' :: ['t'])
        ('.' :: 'w' :: 'a' :: ['v'])) sp = .ok fs1 →
      fsMove fs1 tc sp = .error e →
      save_clip fs tc sp = (fs1, [.warning ('e' :: 'r' :: ['r'])])) ∧
    (∀ (fs fs1 fs2 : Fs) (tc sp : List Char),
      fsIsDir fs sp = true → (pyStrip sp).isEmpty = false →
      fsMove fs (pyReplace tc ('.' :: 's' :: 'r' :: ['t'])
        ('.' :: 'w' :: 'a' :: ['v'])) sp = .ok fs1 →
      fsMove fs1 tc sp = .ok fs2 →
      save_clip fs tc sp = (fs2, [.info (pyBasename tc),
        .info (pyBasename (pyReplace tc ('.' :: 's' :: 'r' :: ['t'])
          ('.' :: 'w' :: 'a' :: ['v'])))])) := by
  refine ⟨?_, ?_, ?_, ?_⟩
  · intro fs tc sp h
    unfold save_clip
    rcases h with rfl | hdir
    · rw [if_pos (by simp [pyStrip])]
    · rw [if_pos (by simp [hdir])]
  · intro fs tc sp e hdir hstrip hmv
    unfold save_clip
    rw [if_neg (by simp [hdir, hstrip])]
    dsimp only
    rw [hmv]
  · intro fs fs1 tc sp e hdir hstrip hmv1 hmv2
    unfold save_clip
    rw [if_neg (by simp [hdir, hstrip])]
    dsimp only
    rw [hmv1]
    dsimp only
    rw [hmv2]
  · intro fs fs1 fs2 tc sp hdir hstrip hmv1 hmv2
    unfold save_clip
    rw [if_neg (by simp [hdir, hstrip])]
    dsimp only
    rw [hmv1]
    dsimp only
    rw [hmv2]

/-- Witness for C8: a concrete filesystem with destination directory `/dst`
and temp pair `/tmp/a.srt` / `/tmp/a.wav`; both moves succeed and the two
info notices are produced. -/
theorem C8_destination_validation_witness :
    fsIsDir ⟨["/dst".toList], [("/tmp/a.wav".toList, 0), ("/tmp/a.srt".toList, 1)]⟩
      "/dst".toList = true ∧
    (pyStrip "/dst".toList).isEmpty = false ∧
    fsMove ⟨["/dst".toList], [("/tmp/a.wav".toList, 0), ("/tmp/a.srt".toList, 1)]⟩
      (pyReplace "/tmp/a.srt".toList ('.' :: 's' :: 'r' :: ['t'])
        ('.' :: 'w' :: 'a' :: ['v'])) "/dst".toList =
      .ok ⟨["/dst".toList], [("/dst/a.wav".toList, 0), ("/tmp/a.srt".toList, 1)]⟩ ∧
    fsMove ⟨["/dst".toList], [("/dst/a.wav".toList, 0), ("/tmp/a.srt".toList, 1)]⟩
      "/tmp/a.srt".toList "/dst".toList =
      .ok ⟨["/dst".toList], [("/dst/a.srt".toList, 1), ("/dst/a.wav".toList, 0)]⟩ ∧
    save_clip ⟨["/dst".toList], [("/tmp/a.wav".toList, 0), ("/tmp/a.srt".toList, 1)]⟩
      "/tmp/a.srt".toList "/dst".toList =
      (⟨["/dst".toList], [("/dst/a.srt".toList, 1), ("/dst/a.wav".toList, 0)]⟩,
       [.info (pyBasename "/tmp/a.srt".toList),
        .info (pyBasename (pyReplace "/tmp/a.srt".toList
          ('.' :: 's' :: 'r' :: ['t']) ('.' :: 'w' :: 'a' :: ['v'])))]) :=
  ⟨by decide, by decide, by decide, by decide,
   C8_destination_validation.2.2.2
     ⟨["/dst".toList], [("/tmp/a.wav".toList, 0), ("/tmp/a.srt".toList, 1)]⟩
     ⟨["/dst".toList], [("/dst/a.wav".toList, 0), ("/tmp/a.srt".toList, 1)]⟩
     ⟨["/dst".toList], [("/dst/a.srt".toList, 1), ("/dst/a.wav".toList, 0)]⟩
     "/tmp/a.srt".toList "/dst".toList
     (by decide) (by decide) (by decide) (by decide)⟩
